import Mathlib

/-!
# Admin panel UI behaviours (`static/js/admin.js`)

A shallow embedding of the six behaviours of `admin.js` over an explicit
model of the browser collaborators they call: the document (a list of
elements, a node being referred to by its position), the timer table with
its clock, the shared `searchTimeout` handle, the registered listeners and
a timestamped log of the calls made to opaque collaborators
(`bootstrap.Alert#close`, `form.submit`).
-/

namespace AdminJs

/-! ## Data model -/

/-- Errors a script body can throw. -/
inductive JsError where
  | typeError
  deriving DecidableEq, Repr

/-- An element of the document, with the attributes and properties read or
written by `admin.js`.  `tag` is the local name, in lower case; `form` is
the form owner of the element, if it has one; `validity` is the answer of
the built-in `checkValidity()` (`none` when the element has no such
method). -/
structure Element where
  tag : String
  id : String
  name : String
  typeAttr : String
  classes : List String
  checked : Bool
  form : Option Nat
  validity : Option Bool
  deriving DecidableEq, Repr

/-- A document: its elements in tree order; a node reference is an index. -/
abbrev Document := List Element

/-- The body of a scheduled timer callback of `admin.js`. -/
inductive Callback where
  | closeAlert (alert : Nat)
  | submitFormOf (input : Nat)
  deriving DecidableEq, Repr

/-- A pending timer: its handle, its due time and its callback. -/
structure Timer where
  id : Nat
  fireAt : Nat
  cb : Callback
  deriving DecidableEq, Repr

/-- A call made to an opaque collaborator, or an error left uncaught. -/
inductive Effect where
  | alertClose (alert : Nat)
  | formSubmit (form : Nat)
  | uncaught (e : JsError)
  deriving DecidableEq, Repr

/-- The state of a page running `admin.js`. -/
structure Page where
  doc : Document
  now : Nat
  nextTimer : Nat
  timers : List Timer
  searchTimeout : Option Nat
  clickListeners : List Nat
  submitListeners : List Nat
  log : List (Nat × Effect)
  deriving DecidableEq, Repr

/-- A submit event, with the two flags the validation handler may set. -/
structure SubmitEvent where
  defaultPrevented : Bool
  propagationStopped : Bool
  deriving DecidableEq, Repr

/-- What a call to `confirm` did: the text shown and the value returned. -/
structure Prompt where
  shown : String
  result : Bool
  deriving DecidableEq, Repr

/-! ## Browser primitives -/

/-- The nodes matching a selector, in document order. -/
def querySelectorAll (doc : Document) (sel : Element → Bool) : List Nat :=
  (List.range doc.length).filter (fun i =>
    match doc[i]? with
    | some e => sel e
    | none => false)

/-- The first node whose id is `x`, if any. -/
def getElementById (doc : Document) (x : String) : Option Nat :=
  (querySelectorAll doc (fun e => e.id == x)).head?

/-- The ASCII lower-case form of a string: the values of the `type`
attribute are compared under it in an HTML document. -/
def asciiLower (s : String) : String :=
  String.mk (s.data.map Char.toLower)

/-- Selector `.alert:not(.alert-permanent)`. -/
def selAlert (e : Element) : Bool :=
  e.classes.contains "alert" && !e.classes.contains "alert-permanent"

/-- Selector `input[type="checkbox"][name="selectedIds"]`: the value of
`type` is matched whatever its case, the value of `name` exactly. -/
def selSelectedIds (e : Element) : Bool :=
  e.tag == "input" && asciiLower e.typeAttr == "checkbox" && e.name == "selectedIds"

/-- Selector `.needs-validation`. -/
def selNeedsValidation (e : Element) : Bool :=
  e.classes.contains "needs-validation"

/-- The method `classList.add`. -/
def classListAdd (token : String) (cs : List String) : List String :=
  if cs.contains token then cs else cs ++ [token]

/-- The method `classList.toggle`. -/
def classListToggle (token : String) (cs : List String) : List String :=
  if cs.contains token then cs.filter (fun c => c != token) else cs ++ [token]

/-- The delay a timer takes from the argument of `setTimeout`: the argument
converted to a signed 32-bit integer, a negative result counting as 0. -/
def timerDelay (delay : Nat) : Nat :=
  if delay % 4294967296 < 2147483648 then delay % 4294967296 else 0

/-- The call `setTimeout(cb, delay)`: the new handle and the new state. -/
def setTimeout (cb : Callback) (delay : Nat) (p : Page) : Nat × Page :=
  (p.nextTimer,
   { p with
     timers := p.timers ++
       [{ id := p.nextTimer, fireAt := p.now + timerDelay delay, cb := cb }],
     nextTimer := p.nextTimer + 1 })

/-- The call `clearTimeout(h)`; `none` stands for `undefined`. -/
def clearTimeout (h : Option Nat) (p : Page) : Page :=
  match h with
  | none => p
  | some k => { p with timers := p.timers.filter (fun t => t.id != k) }

/-- The call `confirm(text)` answered by the user with `answer`. -/
def confirm (answer : Bool) (text : String) : Prompt :=
  { shown := text, result := answer }

/-- The expression `message || dflt` on an optional string: `undefined` and
the empty string are falsy. -/
def orDefault (message : Option String) (dflt : String) : String :=
  match message with
  | none => dflt
  | some s => if s == "" then dflt else s

/-! ## The behaviours of `admin.js` -/

/-- The default phrase of `confirmDelete`. -/
def defaultConfirmMessage : String :=
  "Êtes-vous sûr de vouloir supprimer cet élément ?"

/-- The function `confirmDelete(message)` (lines 15-17). -/
def confirmDelete (answer : Bool) (message : Option String) : Prompt :=
  confirm answer (orDefault message defaultConfirmMessage)

/-- The first `DOMContentLoaded` listener (lines 4-12): one 5000 ms timer
per alert that is not permanent. -/
def alertsOnReady (p : Page) : Page :=
  (querySelectorAll p.doc selAlert).foldl
    (fun q a => (setTimeout (Callback.closeAlert a) 5000 q).2) p

/-- The click listener of the sidebar toggle (line 24). -/
def sidebarClickHandler (doc : Document) : Except JsError Document :=
  match getElementById doc "sidebarMenu" with
  | none => Except.error JsError.typeError
  | some m =>
    Except.ok (doc.modify (fun e => { e with classes := classListToggle "show" e.classes }) m)

/-- The second `DOMContentLoaded` listener (lines 20-27). -/
def sidebarOnReady (p : Page) : Page :=
  match getElementById p.doc "sidebarToggle" with
  | some t => { p with clickListeners := p.clickListeners ++ [t] }
  | none => p

/-- A click event delivered to `node`. -/
def click (node : Nat) (p : Page) : Except JsError Page :=
  if node ∈ p.clickListeners then
    match sidebarClickHandler p.doc with
    | Except.ok d => Except.ok { p with doc := d }
    | Except.error e => Except.error e
  else Except.ok p

/-- A number of successive clicks on `node`, stopping at the first error. -/
def clicks (node : Nat) : Nat → Page → Except JsError Page
  | 0, p => Except.ok p
  | n + 1, p =>
    match click node p with
    | Except.ok q => clicks node n q
    | Except.error e => Except.error e

/-- The function `debounceSearch(input, delay = 500)` (lines 30-36). -/
def debounceSearch (input : Nat) (delay : Option Nat) (p : Page) : Page :=
  let p1 := clearTimeout p.searchTimeout p
  let r := setTimeout (Callback.submitFormOf input) (delay.getD 500) p1
  { r.2 with searchTimeout := some r.1 }

/-- The function `toggleSelectAll(source)` (lines 39-44). -/
def toggleSelectAll (source : Nat) (doc : Document) : Except JsError Document :=
  (querySelectorAll doc selSelectedIds).foldlM
    (fun d checkbox =>
      match d[source]? with
      | none => Except.error JsError.typeError
      | some src => Except.ok (d.modify (fun e => { e with checked := src.checked }) checkbox))
    doc

/-- The submit listener attached to a flagged form (lines 51-57). -/
def validationSubmitHandler (form : Nat) (ev : SubmitEvent) (doc : Document) :
    Except JsError (SubmitEvent × Document) :=
  match doc[form]? with
  | none => Except.error JsError.typeError
  | some el =>
    match el.validity with
    | none => Except.error JsError.typeError
    | some valid =>
      let ev1 : SubmitEvent :=
        if !valid then { defaultPrevented := true, propagationStopped := true } else ev
      Except.ok (ev1,
        doc.modify (fun e => { e with classes := classListAdd "was-validated" e.classes }) form)

/-- The initialization block run at script evaluation (lines 47-59). -/
def validationInit (p : Page) : Page :=
  (querySelectorAll p.doc selNeedsValidation).foldl
    (fun q form => { q with submitListeners := q.submitListeners ++ [form] }) p

/-- A submit event delivered to `form`. -/
def dispatchSubmit (form : Nat) (ev : SubmitEvent) (p : Page) :
    Except JsError (SubmitEvent × Page) :=
  if form ∈ p.submitListeners then
    match validationSubmitHandler form ev p.doc with
    | Except.ok r => Except.ok (r.1, { p with doc := r.2 })
    | Except.error e => Except.error e
  else Except.ok (ev, p)

/-! ## Page life cycle and the event loop -/

/-- A page whose script has not run yet, at time `t0`. -/
def fresh (doc : Document) (t0 : Nat) : Page :=
  { doc := doc, now := t0, nextTimer := 1, timers := [], searchTimeout := none,
    clickListeners := [], submitListeners := [], log := [] }

/-- Script evaluation followed by `DOMContentLoaded` at time `t0`. -/
def load (doc : Document) (t0 : Nat) : Page :=
  sidebarOnReady (alertsOnReady (validationInit (fresh doc t0)))

/-- The expression `input.form`: the form owner of the node; an `img` has a
form owner and no `form` property. -/
def formOf (doc : Document) (input : Nat) : Option Nat :=
  doc[input]?.bind (fun e => if e.tag == "img" then none else e.form)

/-- Whether an element is a listed element of a form. -/
def isListed (e : Element) : Bool :=
  ["button", "fieldset", "input", "object", "output", "select", "textarea"].contains e.tag

/-- Whether `form.submit` names the element `e` in the form `f`: a listed
element other than an image button, or an `img`, whose form owner is `f` and
whose name or id is `submit`. -/
def namesSubmit (f : Nat) (e : Element) : Bool :=
  e.form == some f && (e.name == "submit" || e.id == "submit") &&
    ((isListed e && !(e.tag == "input" && asciiLower e.typeAttr == "image")) || e.tag == "img")

/-- Whether the method `submit` of the form `f` is shadowed by one of its
controls, `form.submit` being then that control and not a function. -/
def submitShadowed (doc : Document) (f : Nat) : Bool :=
  doc.any (namesSubmit f)

/-- The form submitted by the call `input.form.submit()` (line 34), `none`
when the call throws: `input.form` is `null`, or `submit` is shadowed. -/
def submitTarget (doc : Document) (input : Nat) : Option Nat :=
  match formOf doc input with
  | none => none
  | some f => if submitShadowed doc f then none else some f

/-- The outcome of running a timer callback (lines 8-9 and line 34). -/
def effectOf (doc : Document) : Callback → Effect
  | Callback.closeAlert a => Effect.alertClose a
  | Callback.submitFormOf i =>
    match submitTarget doc i with
    | some f => Effect.formSubmit f
    | none => Effect.uncaught JsError.typeError

/-- Running a timer callback: its outcome is logged at the current time. -/
def runCallback (cb : Callback) (p : Page) : Page :=
  { p with log := p.log ++ [(p.now, effectOf p.doc cb)] }

/-- The event loop runs every timer that is due, in creation order. -/
def fireDue (p : Page) : Page :=
  (p.timers.filter (fun t => decide (t.fireAt ≤ p.now))).foldl
    (fun q t => runCallback t.cb q)
    { p with timers := p.timers.filter (fun t => decide (p.now < t.fireAt)) }

/-- The event loop runs the timer `k` alone, provided it is pending and due. -/
def fireOne (k : Nat) (p : Page) : Page :=
  match p.timers.find? (fun t => t.id == k && decide (t.fireAt ≤ p.now)) with
  | some t => runCallback t.cb { p with timers := p.timers.filter (fun u => u.id != k) }
  | none => p

/-- One millisecond passes. -/
def tick (p : Page) : Page :=
  { p with now := p.now + 1 }

/-- Punctual scheduling: `n` milliseconds pass, every timer running at the
millisecond it is due. -/
def elapse : Nat → Page → Page
  | 0, p => p
  | n + 1, p => fireDue (tick (elapse n p))

/-- A step of a punctual run: time passing, or a call of `debounceSearch`
after which the event loop runs what is already due. -/
inductive Step where
  | wait (ms : Nat)
  | search (input : Nat) (delay : Option Nat)
  deriving DecidableEq, Repr

/-- Running one step. -/
def Step.run : Step → Page → Page
  | Step.wait n, p => elapse n p
  | Step.search i d, p => fireDue (debounceSearch i d p)

/-- Running a list of steps. -/
def runSteps (steps : List Step) (p : Page) : Page :=
  steps.foldl (fun q s => s.run q) p

/-- The time spent waiting in a list of steps. -/
def waited : List Step → Nat
  | [] => 0
  | Step.wait n :: r => n + waited r
  | Step.search _ _ :: r => waited r

/-- An action of an arbitrary interleaving: a call of `debounceSearch`, the
clock advancing, one due timer firing, or all due timers firing. -/
inductive Action where
  | search (input : Nat) (delay : Option Nat)
  | tick
  | fire (k : Nat)
  | fireDue
  deriving DecidableEq, Repr

/-- Running one action. -/
def Action.run : Action → Page → Page
  | Action.search i d, p => debounceSearch i d p
  | Action.tick, p => AdminJs.tick p
  | Action.fire k, p => fireOne k p
  | Action.fireDue, p => AdminJs.fireDue p

/-- Running a list of actions. -/
def runActions (acts : List Action) (p : Page) : Page :=
  acts.foldl (fun q a => a.run q) p

/-! ## Observations -/

/-- Whether a timer was armed by `debounceSearch`. -/
def Timer.isSubmit (t : Timer) : Bool :=
  match t.cb with
  | Callback.submitFormOf _ => true
  | Callback.closeAlert _ => false

/-- The pending submission timers. -/
def pendingSubmits (p : Page) : List Timer :=
  p.timers.filter Timer.isSubmit

/-- The handles in use: every pending timer has a handle already issued, and
the pending timers armed by `debounceSearch` are those `searchTimeout`
refers to. -/
structure Handles (p : Page) : Prop where
  issued : ∀ t ∈ p.timers, t.id < p.nextTimer
  shared : ∀ t ∈ p.timers, (t.isSubmit = true ↔ p.searchTimeout = some t.id)

/-- A state between two tasks of a punctual run: no pending timer is due. -/
def Punctual (p : Page) : Prop :=
  ∀ t ∈ p.timers, p.now < t.fireAt

/-- The form submitted by an effect, if it is a submission. -/
def Effect.submitted : Effect → Option Nat
  | Effect.formSubmit f => some f
  | _ => none

/-- The alert dismissed by an effect, if it is a dismissal call. -/
def Effect.dismissed : Effect → Option Nat
  | Effect.alertClose a => some a
  | _ => none

/-- The timestamped entries of one kind among timestamped effects. -/
def observe (g : Effect → Option Nat) (l : List (Nat × Effect)) : List (Nat × Nat) :=
  l.filterMap (fun e => (g e.2).map (fun b => (e.1, b)))

/-- The form submissions made so far: time and form. -/
def submissions (log : List (Nat × Effect)) : List (Nat × Nat) :=
  observe Effect.submitted log

/-- The dismissal calls made so far: time and alert. -/
def dismissals (log : List (Nat × Effect)) : List (Nat × Nat) :=
  observe Effect.dismissed log

/-- What the pending timers will do when each runs at its due time. -/
def scheduled (p : Page) : List (Nat × Effect) :=
  p.timers.map (fun t => (t.fireAt, effectOf p.doc t.cb))

/-- A burst of calls of `debounceSearch` with one delay: a first call, then
each further call after its gap. -/
def burstSteps (delay : Option Nat) (first : Nat) (rest : List (Nat × Nat)) : List Step :=
  Step.search first delay ::
    rest.flatMap (fun gi => [Step.wait gi.1, Step.search gi.2 delay])

/-- The input of the last call of a burst. -/
def lastInput (first : Nat) (rest : List (Nat × Nat)) : Nat :=
  ((rest.map Prod.snd).getLast?).getD first

/-! ## Example pages -/

/-- A page with a toggle control and no sidebar container. -/
def exToggleOnly : Document :=
  [{ tag := "button", id := "sidebarToggle", name := "", typeAttr := "button", classes := [],
     checked := false, form := none, validity := none }]

/-- A page with a toggle control and a sidebar container shown at first. -/
def exSidebar : Document :=
  [{ tag := "button", id := "sidebarToggle", name := "", typeAttr := "button", classes := [],
     checked := false, form := none, validity := none },
   { tag := "nav", id := "sidebarMenu", name := "", typeAttr := "",
     classes := ["show", "sidebar"], checked := false, form := none, validity := none }]

/-- A flagged form that fails its built-in validity check. -/
def exInvalidForm : Element :=
  { tag := "form", id := "f", name := "", typeAttr := "", classes := ["needs-validation"],
    checked := false, form := none, validity := some false }

/-- A master checkbox that is checked. -/
def exMaster : Element :=
  { tag := "input", id := "all", name := "", typeAttr := "checkbox", classes := [],
    checked := true, form := none, validity := some true }

/-- A row checkbox named `selectedIds`, unchecked. -/
def exRow : Element :=
  { tag := "input", id := "", name := "selectedIds", typeAttr := "checkbox", classes := [],
    checked := false, form := none, validity := some true }

/-- A table page: the master checkbox and two row checkboxes, the second
written with its type in upper case. -/
def exTable : Document :=
  [exMaster, exRow, { exRow with typeAttr := "CHECKBOX" }]

/-- A filter form with two search inputs, both owned by the form. -/
def exSearch : Document :=
  [{ tag := "form", id := "filters", name := "", typeAttr := "", classes := [],
     checked := false, form := none, validity := some true },
   { tag := "input", id := "", name := "nom", typeAttr := "search", classes := [],
     checked := false, form := some 0, validity := some true },
   { tag := "input", id := "", name := "ville", typeAttr := "search", classes := [],
     checked := false, form := some 0, validity := some true }]


/-- A search input that belongs to no form. -/
def exOrphan : Document :=
  [{ tag := "input", id := "", name := "q", typeAttr := "search", classes := [],
     checked := false, form := none, validity := some true }]

/-- A search form whose button is named `submit`. -/
def exShadowed : Document :=
  [{ tag := "form", id := "search", name := "", typeAttr := "", classes := [],
     checked := false, form := none, validity := some true },
   { tag := "input", id := "", name := "q", typeAttr := "search", classes := [],
     checked := false, form := some 0, validity := some true },
   { tag := "button", id := "", name := "submit", typeAttr := "submit", classes := [],
     checked := false, form := some 0, validity := some true }]

/-- Two forms with one search input each. -/
def exTwoForms : Document :=
  [{ tag := "form", id := "left", name := "", typeAttr := "", classes := [],
     checked := false, form := none, validity := some true },
   { tag := "form", id := "right", name := "", typeAttr := "", classes := [],
     checked := false, form := none, validity := some true },
   { tag := "input", id := "", name := "q", typeAttr := "search", classes := [],
     checked := false, form := some 0, validity := some true },
   { tag := "input", id := "", name := "q", typeAttr := "search", classes := [],
     checked := false, form := some 1, validity := some true }]

/-- Two forms with one search input each, the button of the second form
being named `submit`. -/
def exTwoFormsShadowed : Document :=
  exTwoForms ++
    [{ tag := "button", id := "", name := "submit", typeAttr := "submit", classes := [],
       checked := false, form := some 1, validity := some true }]

/-- A page with two dismissible alerts, a permanent one and a plain block. -/
def exAlerts : Document :=
  [{ tag := "div", id := "", name := "", typeAttr := "", classes := ["alert", "alert-success"],
     checked := false, form := none, validity := none },
   { tag := "div", id := "", name := "", typeAttr := "",
     classes := ["alert", "alert-permanent"], checked := false, form := none, validity := none },
   { tag := "div", id := "", name := "", typeAttr := "", classes := ["card"],
     checked := false, form := none, validity := none },
   { tag := "div", id := "", name := "", typeAttr := "", classes := ["alert"],
     checked := false, form := none, validity := none }]

/-! ## The document -/

theorem mem_querySelectorAll (doc : Document) (sel : Element → Bool) (i : Nat) :
    i ∈ querySelectorAll doc sel ↔ ∃ e, doc[i]? = some e ∧ sel e = true := by
  unfold querySelectorAll
  rw [List.mem_filter, List.mem_range]
  constructor
  · rintro ⟨hi, h⟩
    rw [List.getElem?_eq_getElem hi] at h
    exact ⟨doc[i], List.getElem?_eq_getElem hi, h⟩
  · rintro ⟨e, he, hs⟩
    have hi : i < doc.length := (List.getElem?_eq_some_iff.mp he).1
    refine ⟨hi, ?_⟩
    rw [he]; exact hs

/-- A selector that does not see a change made to one node selects the
same nodes after it. -/
theorem querySelectorAll_modify (doc : Document) (sel : Element → Bool) (f : Element → Element)
    (m : Nat) (hf : ∀ e, sel (f e) = sel e) :
    querySelectorAll (doc.modify f m) sel = querySelectorAll doc sel := by
  unfold querySelectorAll
  rw [List.length_modify]
  apply List.filter_congr
  intro i _
  rw [List.getElem?_modify]
  cases h : doc[i]? with
  | none => simp
  | some e =>
    by_cases hmi : m = i
    · simp [hmi, hf]
    · simp [hmi]

theorem getElementById_modify (doc : Document) (x : String) (f : Element → Element) (m : Nat)
    (hf : ∀ e, (f e).id = e.id) :
    getElementById (doc.modify f m) x = getElementById doc x := by
  unfold getElementById
  rw [querySelectorAll_modify]
  intro e
  rw [hf]

theorem modify_modify (doc : Document) (f g : Element → Element) (m : Nat) :
    (doc.modify f m).modify g m = doc.modify (g ∘ f) m := by
  apply List.ext_getElem?
  intro i
  simp only [List.getElem?_modify]
  cases doc[i]? with
  | none => rfl
  | some e =>
    by_cases hmi : m = i
    · simp [hmi]
    · simp [hmi]

theorem mem_classListAdd (token c : String) (cs : List String) :
    c ∈ classListAdd token cs ↔ c = token ∨ c ∈ cs := by
  unfold classListAdd
  by_cases h : cs.contains token = true
  · rw [if_pos h]
    constructor
    · exact Or.inr
    · rintro (rfl | hc)
      · simpa using h
      · exact hc
  · rw [if_neg h]
    simp [or_comm]

theorem mem_classListToggle (token c : String) (cs : List String) :
    c ∈ classListToggle token cs ↔ (if c = token then c ∉ cs else c ∈ cs) := by
  unfold classListToggle
  by_cases h : cs.contains token = true
  · rw [if_pos h]
    have ht : token ∈ cs := by simpa using h
    by_cases hc : c = token
    · subst hc
      simp [ht]
    · simp [hc]
  · rw [if_neg h]
    have ht : token ∉ cs := by simpa using h
    by_cases hc : c = token
    · subst hc
      simp [ht]
    · simp [hc]

/-! ## Page loading -/

theorem validationInit_fold (l : List Nat) (p : Page) :
    l.foldl (fun q form => { q with submitListeners := q.submitListeners ++ [form] }) p =
      { p with submitListeners := p.submitListeners ++ l } := by
  induction l generalizing p with
  | nil => simp
  | cons a r ih => rw [List.foldl_cons, ih]; simp

theorem validationInit_eq (p : Page) :
    validationInit p =
      { p with submitListeners :=
          p.submitListeners ++ querySelectorAll p.doc selNeedsValidation } := by
  unfold validationInit
  exact validationInit_fold _ p

/-- A delay below 2^31 ms is taken as it is. -/
theorem timerDelay_of_lt (d : Nat) (h : d < 2147483648) : timerDelay d = d := by
  unfold timerDelay
  have hm : d % 4294967296 = d := Nat.mod_eq_of_lt (by omega)
  rw [hm, if_pos h]

theorem timerDelay_alert : timerDelay 5000 = 5000 := by decide

/-- The timers armed for a list of alerts: one per alert, in order, each due
5000 ms from now and with a handle issued for it. -/
theorem alertsOnReady_fold (l : List Nat) (p : Page) :
    ∃ ts : List Timer,
      l.foldl (fun q a => (setTimeout (Callback.closeAlert a) 5000 q).2) p =
        { p with timers := p.timers ++ ts, nextTimer := p.nextTimer + l.length } ∧
      ts.map (fun t => (t.fireAt, t.cb)) = l.map (fun a => (p.now + 5000, Callback.closeAlert a)) ∧
      ∀ t ∈ ts, t.id < p.nextTimer + l.length := by
  induction l generalizing p with
  | nil => exact ⟨[], by simp, by simp, by simp⟩
  | cons a r ih =>
    obtain ⟨ts, h1, h2, h3⟩ := ih (setTimeout (Callback.closeAlert a) 5000 p).2
    refine ⟨{ id := p.nextTimer, fireAt := p.now + 5000, cb := Callback.closeAlert a } :: ts,
      ?_, ?_, ?_⟩
    · rw [List.foldl_cons, h1]
      simp [setTimeout, timerDelay_alert, Nat.add_assoc, Nat.add_comm 1]
    · simpa [setTimeout] using h2
    · intro t ht
      rcases List.mem_cons.mp ht with rfl | ht
      · simp
      · have := h3 t ht
        simp [setTimeout] at this ⊢
        omega

theorem sidebarOnReady_eq (p : Page) :
    sidebarOnReady p =
      { p with clickListeners := p.clickListeners ++ (getElementById p.doc "sidebarToggle").toList } := by
  unfold sidebarOnReady
  cases getElementById p.doc "sidebarToggle" <;> simp

/-- The state of a page once loaded. -/
theorem load_eq (doc : Document) (t0 : Nat) :
    ∃ ts : List Timer,
      load doc t0 =
        { doc := doc, now := t0, nextTimer := 1 + (querySelectorAll doc selAlert).length,
          timers := ts, searchTimeout := none,
          clickListeners := (getElementById doc "sidebarToggle").toList,
          submitListeners := querySelectorAll doc selNeedsValidation, log := [] } ∧
      ts.map (fun t => (t.fireAt, t.cb)) =
        (querySelectorAll doc selAlert).map (fun a => (t0 + 5000, Callback.closeAlert a)) ∧
      ∀ t ∈ ts, t.id < 1 + (querySelectorAll doc selAlert).length := by
  unfold load alertsOnReady
  rw [validationInit_eq]
  obtain ⟨ts, h1, h2, h3⟩ := alertsOnReady_fold (querySelectorAll doc selAlert)
    { fresh doc t0 with submitListeners :=
        (fresh doc t0).submitListeners ++ querySelectorAll (fresh doc t0).doc selNeedsValidation }
  refine ⟨ts, ?_, ?_, ?_⟩
  · simp only [fresh] at h1 ⊢
    rw [h1, sidebarOnReady_eq]
    simp
  · simpa [fresh] using h2
  · simpa [fresh] using h3

/-! ## Delete confirmation -/

/-- C4 (as amended): whatever the user answers, `confirmDelete()` shows the
default phrase and returns the answer, `confirmDelete(s)` with a non-empty
string `s` shows exactly `s` and returns the answer, and `confirmDelete("")`
shows the default phrase. -/
theorem confirmDelete_shows_message (r : Bool) (s : String) (hs : s ≠ "") :
    confirmDelete r none = { shown := defaultConfirmMessage, result := r } ∧
    confirmDelete r (some s) = { shown := s, result := r } ∧
    confirmDelete r (some "") = { shown := defaultConfirmMessage, result := r } := by
  refine ⟨rfl, ?_, rfl⟩
  simp [confirmDelete, confirm, orDefault, hs]

theorem confirmDelete_shows_message_witness :
    "Supprimer ?" ≠ "" ∧
    confirmDelete false (some "Supprimer ?") = { shown := "Supprimer ?", result := false } :=
  ⟨by decide, (confirmDelete_shows_message false "Supprimer ?" (by decide)).2.1⟩

/-- C4 fails for the empty string: the prompt of `confirmDelete("")` shows
the default phrase, not the string given. -/
theorem confirmDelete_empty_string :
    (confirmDelete true (some "")).shown = defaultConfirmMessage ∧
    (confirmDelete true (some "")).shown ≠ "" := by
  decide

/-! ## Validation gate -/

/-- C3: on a page loaded with document `doc`, whatever the document `cur`
has become since, a submit event on a form that was flagged
`needs-validation` at script evaluation is default-prevented and
propagation-stopped when the built-in check fails, keeps its flags when the
check passes, and in both cases the form gets the class `was-validated`
(and nothing else changes). -/
theorem validation_gate (doc cur : Document) (t0 form : Nat) (el cel : Element) (valid : Bool)
    (ev : SubmitEvent) (hel : doc[form]? = some el) (hflag : selNeedsValidation el = true)
    (hcur : cur[form]? = some cel) (hval : cel.validity = some valid) :
    ∃ ev1 q, dispatchSubmit form ev { load doc t0 with doc := cur } = Except.ok (ev1, q) ∧
      (valid = false → ev1.defaultPrevented = true ∧ ev1.propagationStopped = true) ∧
      (valid = true → ev1 = ev) ∧
      q = { load doc t0 with
            doc := cur.modify
              (fun e => { e with classes := classListAdd "was-validated" e.classes }) form } ∧
      ∃ el1, q.doc[form]? = some el1 ∧ "was-validated" ∈ el1.classes ∧
        (∀ c, c ∈ el1.classes ↔ c = "was-validated" ∨ c ∈ cel.classes) := by
  obtain ⟨ts, hload, -, -⟩ := load_eq doc t0
  have hmem : form ∈ (load doc t0).submitListeners := by
    rw [hload]
    exact (mem_querySelectorAll doc selNeedsValidation form).mpr ⟨el, hel, hflag⟩
  refine ⟨if valid then ev else { defaultPrevented := true, propagationStopped := true },
    { load doc t0 with
      doc := cur.modify
        (fun e => { e with classes := classListAdd "was-validated" e.classes }) form },
    ?_, ?_, ?_, rfl, ?_⟩
  · unfold dispatchSubmit
    rw [if_pos hmem]
    unfold validationSubmitHandler
    simp only [hcur, hval]
    cases valid <;> rfl
  · intro h; subst h; exact ⟨rfl, rfl⟩
  · intro h; subst h; rfl
  · refine ⟨{ cel with classes := classListAdd "was-validated" cel.classes }, ?_, ?_, ?_⟩
    · simp [List.getElem?_modify, hcur]
    · exact (mem_classListAdd _ _ _).mpr (Or.inl rfl)
    · intro c; exact mem_classListAdd _ _ _

theorem validation_gate_witness :
    [exInvalidForm][0]? = some exInvalidForm ∧ selNeedsValidation exInvalidForm = true ∧
    exInvalidForm.validity = some false ∧
    ∃ ev1 q, dispatchSubmit 0 { defaultPrevented := false, propagationStopped := false }
        { load [exInvalidForm] 0 with doc := [exInvalidForm] } = Except.ok (ev1, q) ∧
      ev1.defaultPrevented = true ∧ ev1.propagationStopped = true := by
  refine ⟨rfl, by decide, rfl, ?_⟩
  obtain ⟨ev1, q, h1, h2, -⟩ := validation_gate [exInvalidForm] [exInvalidForm] 0 0
    exInvalidForm exInvalidForm false
    { defaultPrevented := false, propagationStopped := false } rfl (by decide) rfl rfl
  exact ⟨ev1, q, h1, h2 rfl⟩

/-! ## Select-all -/

/-- The assignment `checkbox.checked = b`. -/
theorem setChecked_fold (source : Nat) (b : Bool) (idxs : List Nat) (d : Document)
    (h : d[source]?.map (fun e => e.checked) = some b) :
    ∃ d1, idxs.foldlM
        (fun (d : Document) checkbox =>
          match d[source]? with
          | none => Except.error JsError.typeError
          | some src =>
            Except.ok (d.modify (fun e => { e with checked := src.checked }) checkbox))
        d = Except.ok d1 ∧
      ∀ j, d1[j]? =
        if j ∈ idxs then d[j]?.map (fun e => { e with checked := b }) else d[j]? := by
  induction idxs generalizing d with
  | nil => exact ⟨d, rfl, by simp⟩
  | cons a r ih =>
    cases hs : d[source]? with
    | none => simp [hs] at h
    | some src =>
      have hb : src.checked = b := by simpa [hs] using h
      have h1 : (d.modify (fun e => { e with checked := b }) a)[source]?.map
          (fun e => e.checked) = some b := by
        rw [List.getElem?_modify, hs]
        by_cases has : a = source <;> simp [has, hb]
      obtain ⟨d1, hd1, hj⟩ := ih _ h1
      refine ⟨d1, ?_, ?_⟩
      · rw [List.foldlM_cons]
        simp only [hs, hb]
        exact hd1
      · intro j
        rw [hj j, List.getElem?_modify]
        by_cases hja : a = j
        · subst hja
          cases d[a]? <;> simp
        · have hja2 : ¬ j = a := fun h => hja h.symm
          simp [hja, hja2]

/-- The document left by `toggleSelectAll`, in closed form. -/
theorem toggleSelectAll_eq (doc : Document) (source : Nat) (src : Element)
    (hsrc : doc[source]? = some src) :
    toggleSelectAll source doc = Except.ok
      (doc.map (fun e => if selSelectedIds e then { e with checked := src.checked } else e)) := by
  obtain ⟨d1, hd1, hj⟩ := setChecked_fold source src.checked
    (querySelectorAll doc selSelectedIds) doc (by simp [hsrc])
  unfold toggleSelectAll
  rw [hd1]
  congr 1
  apply List.ext_getElem?
  intro j
  rw [hj j, List.getElem?_map]
  cases hd : doc[j]? with
  | none => simp
  | some e =>
    by_cases hsel : selSelectedIds e = true
    · have : j ∈ querySelectorAll doc selSelectedIds :=
        (mem_querySelectorAll _ _ _).mpr ⟨e, hd, hsel⟩
      simp [this, hsel]
    · have : j ∉ querySelectorAll doc selSelectedIds := by
        intro hm
        obtain ⟨e1, he1, hs1⟩ := (mem_querySelectorAll _ _ _).mp hm
        rw [hd] at he1
        cases he1
        exact hsel hs1
      simp [this, hsel]

/-- C2: after `toggleSelectAll(source)` every checkbox named `selectedIds`
has `checked` equal to `source.checked`, whatever its state before; with no
such checkbox the document is left unchanged. -/
theorem toggleSelectAll_sets_all (doc : Document) (source : Nat) (src : Element)
    (hsrc : doc[source]? = some src) :
    ∃ d : Document, toggleSelectAll source doc = Except.ok d ∧
      (∀ (i : Nat) (e : Element), doc[i]? = some e → selSelectedIds e = true →
        d[i]? = some { e with checked := src.checked }) ∧
      (∀ (i : Nat) (e : Element), d[i]? = some e → selSelectedIds e = true → e.checked = src.checked) ∧
      (querySelectorAll doc selSelectedIds = [] → d = doc) := by
  refine ⟨_, toggleSelectAll_eq doc source src hsrc, ?_, ?_, ?_⟩
  · intro i e he hsel
    simp [List.getElem?_map, he, hsel]
  · intro i e he hsel
    rw [List.getElem?_map] at he
    cases hd : doc[i]? with
    | none => simp [hd] at he
    | some e0 =>
      rw [hd] at he
      by_cases h0 : selSelectedIds e0 = true
      · simp [h0] at he
        rw [← he]
      · simp [h0] at he
        rw [he] at h0
        exact absurd hsel h0
  · intro hnil
    apply List.ext_getElem?
    intro i
    rw [List.getElem?_map]
    cases hd : doc[i]? with
    | none => rfl
    | some e =>
      have : i ∉ querySelectorAll doc selSelectedIds := by rw [hnil]; simp
      have hsel : ¬ selSelectedIds e = true := fun h =>
        this ((mem_querySelectorAll _ _ _).mpr ⟨e, hd, h⟩)
      simp [hsel]

theorem toggleSelectAll_sets_all_witness :
    exTable[0]? = some exMaster ∧
    ∃ d : Document, toggleSelectAll 0 exTable = Except.ok d ∧
      d[1]? = some { exRow with checked := true } ∧
      d[2]? = some { exRow with typeAttr := "CHECKBOX", checked := true } := by
  refine ⟨rfl, ?_⟩
  obtain ⟨d, h1, h2, -⟩ := toggleSelectAll_sets_all exTable 0 exMaster rfl
  exact ⟨d, h1, h2 1 exRow rfl (by decide),
    h2 2 { exRow with typeAttr := "CHECKBOX" } rfl (by decide)⟩

/-- C10: `toggleSelectAll(source)` adds and removes no element, leaves every
element that is not a checkbox named `selectedIds` as it was, changes at
most `checked` on the others, leaves `source.checked` as it was, and a
second call changes nothing more. -/
theorem toggleSelectAll_frame (doc : Document) (source : Nat) (src : Element)
    (hsrc : doc[source]? = some src) :
    ∃ d : Document, toggleSelectAll source doc = Except.ok d ∧
      d.length = doc.length ∧
      (∀ (i : Nat) (e : Element), doc[i]? = some e → selSelectedIds e = false → d[i]? = some e) ∧
      (∀ (i : Nat) (e : Element), doc[i]? = some e → ∃ e1 : Element, d[i]? = some e1 ∧ { e1 with checked := e.checked } = e) ∧
      d[source]?.map (fun e => e.checked) = some src.checked ∧
      toggleSelectAll source d = Except.ok d := by
  refine ⟨_, toggleSelectAll_eq doc source src hsrc, by simp, ?_, ?_, ?_, ?_⟩
  · intro i e he hsel
    simp [List.getElem?_map, he, hsel]
  · intro i e he
    by_cases hsel : selSelectedIds e = true <;> simp [List.getElem?_map, he, hsel]
  · rw [List.getElem?_map, hsrc]
    by_cases hsel : selSelectedIds src = true <;> simp [hsel]
  · have hs2 : (doc.map (fun e =>
        if selSelectedIds e then { e with checked := src.checked } else e))[source]? =
        some (if selSelectedIds src then { src with checked := src.checked } else src) := by
      rw [List.getElem?_map, hsrc]; rfl
    have hb : (if selSelectedIds src then { src with checked := src.checked } else src).checked =
        src.checked := by
      by_cases hss : selSelectedIds src = true <;> simp [hss]
    rw [toggleSelectAll_eq _ source _ hs2, hb]
    congr 1
    rw [List.map_map]
    apply List.map_congr_left
    intro e _
    by_cases hsel : selSelectedIds e = true
    · have hsel2 : selSelectedIds { e with checked := src.checked } = true := hsel
      simp only [Function.comp, hsel, if_true, hsel2]
    · simp only [Function.comp, hsel]
      simp [hsel]

theorem toggleSelectAll_frame_witness :
    exTable[1]? = some exRow ∧
    ∃ d : Document, toggleSelectAll 1 exTable = Except.ok d ∧ d.length = 3 ∧
      d[0]? = some exMaster ∧ toggleSelectAll 1 d = Except.ok d := by
  refine ⟨rfl, ?_⟩
  obtain ⟨d, h1, h2, h3, -, -, h6⟩ := toggleSelectAll_frame exTable 1 exRow rfl
  exact ⟨d, h1, h2, h3 0 exMaster rfl (by decide), h6⟩

/-! ## Sidebar toggle -/

theorem getElementById_some (doc : Document) (x : String) (m : Nat)
    (h : getElementById doc x = some m) : ∃ e : Element, doc[m]? = some e := by
  unfold getElementById at h
  have hm : m ∈ querySelectorAll doc (fun e => e.id == x) := List.mem_of_mem_head? h
  obtain ⟨e, he, -⟩ := (mem_querySelectorAll _ _ _).mp hm
  exact ⟨e, he⟩

/-- The effect of `n` toggles of a token on membership in the class list. -/
theorem mem_iterate_classListToggle (token c : String) (n : Nat) (cs : List String) :
    c ∈ (classListToggle token)^[n] cs ↔
      (if c = token ∧ n % 2 = 1 then c ∉ cs else c ∈ cs) := by
  induction n with
  | zero => simp
  | succ n ih =>
    rw [Function.iterate_succ_apply', mem_classListToggle, ih]
    by_cases hc : c = token
    · rcases Nat.mod_two_eq_zero_or_one n with h | h
      · have h1 : (n + 1) % 2 = 1 := by omega
        simp [hc, h, h1]
      · have h1 : ¬ (n + 1) % 2 = 1 := by omega
        simp [hc, h, h1]
    · simp [hc]

/-- The page left by `n` clicks on the toggle when the container exists. -/
theorem clicks_eq (t m n : Nat) (p : Page) (ht : t ∈ p.clickListeners)
    (hm : getElementById p.doc "sidebarMenu" = some m) :
    clicks t n p = Except.ok
      { p with
        doc := p.doc.modify
          (fun e => { e with classes := (classListToggle "show")^[n] e.classes }) m } := by
  induction n generalizing p with
  | zero =>
    have : p.doc.modify (fun e => { e with classes := (classListToggle "show")^[0] e.classes }) m
        = p.doc := by
      apply List.ext_getElem?
      intro i
      rw [List.getElem?_modify]
      cases p.doc[i]? with
      | none => rfl
      | some e => by_cases hmi : m = i <;> simp [hmi]
    rw [this]
    rfl
  | succ n ih =>
    have hc : click t p = Except.ok
        { p with
          doc := p.doc.modify
            (fun e => { e with classes := classListToggle "show" e.classes }) m } := by
      unfold click sidebarClickHandler
      rw [if_pos ht, hm]
    have hm1 : getElementById
        (p.doc.modify (fun e => { e with classes := classListToggle "show" e.classes }) m)
        "sidebarMenu" = some m :=
      (getElementById_modify p.doc "sidebarMenu"
        (fun e => { e with classes := classListToggle "show" e.classes }) m (fun _ => rfl)).trans hm
    show (match click t p with
      | Except.ok q => clicks t n q
      | Except.error e => Except.error e) = _
    rw [hc]
    show clicks t n
      { p with
        doc := p.doc.modify
          (fun e => { e with classes := classListToggle "show" e.classes }) m } = _
    rw [ih { p with
        doc := p.doc.modify
          (fun e => { e with classes := classListToggle "show" e.classes }) m } ht hm1]
    simp only [modify_modify]
    rfl

/-- C5: with both the toggle control and the sidebar container present, an
even number of clicks on the toggle leaves the class set of the container
as it was and an odd number flips the presence of `show` and of nothing
else, no other element or property changing; with the toggle control
absent, page-ready registers no click listener and clicks change nothing
and raise nothing. -/
theorem sidebar_toggle_parity (doc : Document) (t0 k : Nat) :
    (∀ t m : Nat, getElementById doc "sidebarToggle" = some t →
      getElementById doc "sidebarMenu" = some m →
      ∃ (q0 q1 : Page) (e e0 e1 : Element),
        clicks t (2 * k) (load doc t0) = Except.ok q0 ∧
        clicks t (2 * k + 1) (load doc t0) = Except.ok q1 ∧
        doc[m]? = some e ∧ q0.doc[m]? = some e0 ∧ q1.doc[m]? = some e1 ∧
        (∀ c, c ∈ e0.classes ↔ c ∈ e.classes) ∧
        ("show" ∈ e1.classes ↔ "show" ∉ e.classes) ∧
        (∀ c, c ≠ "show" → (c ∈ e1.classes ↔ c ∈ e.classes)) ∧
        { e0 with classes := e.classes } = e ∧ { e1 with classes := e.classes } = e ∧
        (∀ j : Nat, j ≠ m → q0.doc[j]? = doc[j]? ∧ q1.doc[j]? = doc[j]?)) ∧
    (getElementById doc "sidebarToggle" = none →
      (load doc t0).clickListeners = [] ∧
      ∀ node n : Nat, clicks node n (load doc t0) = Except.ok (load doc t0)) := by
  obtain ⟨ts, hload, -, -⟩ := load_eq doc t0
  have hdoc : (load doc t0).doc = doc := by rw [hload]
  have hcl : (load doc t0).clickListeners = (getElementById doc "sidebarToggle").toList := by
    rw [hload]
  constructor
  · intro t m ht hm
    have htm : t ∈ (load doc t0).clickListeners := by rw [hcl, ht]; simp
    have hm1 : getElementById (load doc t0).doc "sidebarMenu" = some m := by rw [hdoc]; exact hm
    obtain ⟨e, he⟩ := getElementById_some doc _ m hm
    refine ⟨_, _, e,
      { e with classes := (classListToggle "show")^[2 * k] e.classes },
      { e with classes := (classListToggle "show")^[2 * k + 1] e.classes },
      clicks_eq t m (2 * k) _ htm hm1, clicks_eq t m (2 * k + 1) _ htm hm1, he, ?_, ?_, ?_, ?_, ?_,
      rfl, rfl, ?_⟩
    · simp [hdoc, List.getElem?_modify, he]
    · simp [hdoc, List.getElem?_modify, he]
    · intro c
      rw [mem_iterate_classListToggle]
      have : ¬ (2 * k) % 2 = 1 := by omega
      simp [this]
    · rw [mem_iterate_classListToggle]
      have : (2 * k + 1) % 2 = 1 := by omega
      simp [this]
    · intro c hc
      rw [mem_iterate_classListToggle]
      simp [hc]
    · intro j hj
      have hmj : ¬ m = j := fun h => hj h.symm
      constructor
      · simp only [hdoc, List.getElem?_modify, hmj, if_false]
        cases doc[j]? <;> rfl
      · simp only [hdoc, List.getElem?_modify, hmj, if_false]
        cases doc[j]? <;> rfl
  · intro hnone
    have hnil : (load doc t0).clickListeners = [] := by rw [hcl, hnone]; rfl
    refine ⟨hnil, ?_⟩
    intro node n
    induction n with
    | zero => rfl
    | succ n ih =>
      have hc : click node (load doc t0) = Except.ok (load doc t0) := by
        unfold click
        rw [hnil]
        simp
      show (match click node (load doc t0) with
        | Except.ok q => clicks node n q
        | Except.error e => Except.error e) = _
      rw [hc]
      exact ih

theorem sidebar_toggle_parity_witness :
    getElementById exSidebar "sidebarToggle" = some 0 ∧
    getElementById exSidebar "sidebarMenu" = some 1 ∧
    ∃ (q0 q1 : Page) (e e0 e1 : Element),
      clicks 0 (2 * 1) (load exSidebar 0) = Except.ok q0 ∧
      clicks 0 (2 * 1 + 1) (load exSidebar 0) = Except.ok q1 ∧
      exSidebar[1]? = some e ∧ q0.doc[1]? = some e0 ∧ q1.doc[1]? = some e1 ∧
      (∀ c, c ∈ e0.classes ↔ c ∈ e.classes) ∧
      ("show" ∈ e1.classes ↔ "show" ∉ e.classes) := by
  refine ⟨by decide, by decide, ?_⟩
  obtain ⟨q0, q1, e, e0, e1, h1, h2, h3, h4, h5, h6, h7, -⟩ :=
    (sidebar_toggle_parity exSidebar 0 1).1 0 1 (by decide) (by decide)
  exact ⟨q0, q1, e, e0, e1, h1, h2, h3, h4, h5, h6, h7⟩

/-- C8 on a page with the toggle control and without the sidebar container:
page-ready does attach the click listener to the toggle, and a click on the
toggle raises a `TypeError`. -/
theorem sidebar_missing_container :
    getElementById exToggleOnly "sidebarToggle" = some 0 ∧
    getElementById exToggleOnly "sidebarMenu" = none ∧
    (load exToggleOnly 0).clickListeners = [0] ∧
    click 0 (load exToggleOnly 0) = Except.error JsError.typeError :=
  ⟨by decide, by decide, by decide, rfl⟩

/-! ## Timers and the event loop -/

theorem runCallback_fold (l : List Timer) (q : Page) :
    l.foldl (fun q t => runCallback t.cb q) q =
      { q with log := q.log ++ l.map (fun t => (q.now, effectOf q.doc t.cb)) } := by
  induction l generalizing q with
  | nil => simp
  | cons a r ih =>
    rw [List.foldl_cons, ih]
    simp [runCallback]

/-- The state left by the event loop running the due timers. -/
theorem fireDue_eq (p : Page) :
    fireDue p =
      { p with
        timers := p.timers.filter (fun t => decide (p.now < t.fireAt)),
        log := p.log ++ (p.timers.filter (fun t => decide (t.fireAt ≤ p.now))).map
          (fun t => (p.now, effectOf p.doc t.cb)) } := by
  unfold fireDue
  rw [runCallback_fold]

theorem debounceSearch_eq (input : Nat) (delay : Option Nat) (p : Page) :
    debounceSearch input delay p =
      { p with
        timers := (clearTimeout p.searchTimeout p).timers ++
          [{ id := p.nextTimer, fireAt := p.now + timerDelay (delay.getD 500),
             cb := Callback.submitFormOf input }],
        nextTimer := p.nextTimer + 1,
        searchTimeout := some p.nextTimer } := by
  unfold debounceSearch setTimeout
  cases h : p.searchTimeout <;> simp [clearTimeout]

theorem clearTimeout_timers_subset (h : Option Nat) (p : Page) (t : Timer)
    (ht : t ∈ (clearTimeout h p).timers) : t ∈ p.timers ∧ h ≠ some t.id := by
  cases h with
  | none => exact ⟨ht, by simp⟩
  | some k =>
    simp only [clearTimeout, List.mem_filter] at ht
    refine ⟨ht.1, ?_⟩
    intro hk
    injection hk with hk
    simp [hk] at ht

theorem handles_load (doc : Document) (t0 : Nat) : Handles (load doc t0) := by
  obtain ⟨ts, hload, hmap, hid⟩ := load_eq doc t0
  rw [hload]
  constructor
  · exact hid
  · intro t ht
    have hcb : (t.fireAt, t.cb) ∈ ts.map (fun t => (t.fireAt, t.cb)) :=
      List.mem_map_of_mem _ ht
    rw [hmap] at hcb
    obtain ⟨a, -, ha⟩ := List.mem_map.mp hcb
    have hc : t.cb = Callback.closeAlert a := by
      have := congrArg Prod.snd ha
      exact this.symm
    simp [Timer.isSubmit, hc]

/-- Clearing the shared handle leaves no timer armed by `debounceSearch`. -/
theorem handles_clear_no_submit {p : Page} (hp : Handles p) (t : Timer)
    (ht : t ∈ (clearTimeout p.searchTimeout p).timers) : t.isSubmit = false := by
  obtain ⟨hmem, hne⟩ := clearTimeout_timers_subset _ _ _ ht
  cases hs : t.isSubmit with
  | false => rfl
  | true => exact absurd ((hp.shared t hmem).mp hs) hne

theorem handles_debounceSearch {p : Page} (hp : Handles p) (input : Nat) (delay : Option Nat) :
    Handles (debounceSearch input delay p) := by
  rw [debounceSearch_eq]
  constructor
  · intro t ht
    simp only [List.mem_append, List.mem_singleton] at ht
    rcases ht with ht | rfl
    · have := hp.issued t (clearTimeout_timers_subset _ _ _ ht).1
      simp only
      omega
    · simp
  · intro t ht
    simp only [List.mem_append, List.mem_singleton] at ht
    rcases ht with ht | rfl
    · have h1 := handles_clear_no_submit hp t ht
      have h2 := hp.issued t (clearTimeout_timers_subset _ _ _ ht).1
      simp only [h1, Option.some.injEq]
      constructor
      · intro h; cases h
      · intro h; omega
    · simp [Timer.isSubmit]

theorem handles_fireDue {p : Page} (hp : Handles p) : Handles (fireDue p) := by
  rw [fireDue_eq]
  constructor
  · intro t ht
    exact hp.issued t (List.mem_filter.mp ht).1
  · intro t ht
    exact hp.shared t (List.mem_filter.mp ht).1

theorem fireOne_eq (k : Nat) (p : Page) :
    fireOne k p = p ∨
    ∃ cb, fireOne k p = runCallback cb { p with timers := p.timers.filter (fun u => u.id != k) } := by
  unfold fireOne
  cases p.timers.find? (fun t => t.id == k && decide (t.fireAt ≤ p.now)) with
  | none => exact Or.inl rfl
  | some t => exact Or.inr ⟨t.cb, rfl⟩

theorem handles_fireOne {p : Page} (hp : Handles p) (k : Nat) : Handles (fireOne k p) := by
  rcases fireOne_eq k p with h | ⟨cb, h⟩
  · rw [h]; exact hp
  · rw [h]
    constructor
    · intro t ht
      exact hp.issued t (List.mem_filter.mp ht).1
    · intro t ht
      exact hp.shared t (List.mem_filter.mp ht).1

theorem handles_tick {p : Page} (hp : Handles p) : Handles (tick p) :=
  ⟨hp.issued, hp.shared⟩

/-! ## At most one pending submission -/

theorem pendingSubmits_debounceSearch {p : Page} (hp : Handles p) (input : Nat)
    (delay : Option Nat) :
    pendingSubmits (debounceSearch input delay p) =
      [{ id := p.nextTimer, fireAt := p.now + timerDelay (delay.getD 500),
         cb := Callback.submitFormOf input }] := by
  rw [debounceSearch_eq]
  unfold pendingSubmits
  simp only [List.filter_append]
  have h1 : (clearTimeout p.searchTimeout p).timers.filter Timer.isSubmit = [] := by
    rw [List.filter_eq_nil_iff]
    intro t ht
    rw [handles_clear_no_submit hp t ht]
    simp
  rw [h1]
  rfl

theorem pendingSubmits_length_filter (p : Page) (c : Timer → Bool) :
    (pendingSubmits { p with timers := p.timers.filter c }).length ≤
      (pendingSubmits p).length := by
  unfold pendingSubmits
  simp only [List.filter_filter]
  have : (List.filter (fun a => Timer.isSubmit a && c a) p.timers) =
      List.filter c (List.filter Timer.isSubmit p.timers) := by
    rw [List.filter_filter]
    apply List.filter_congr
    intro x _
    exact Bool.and_comm _ _
  rw [this]
  exact List.length_filter_le _ _

/-- One action keeps the handles consistent and at most one submission
timer pending. -/
theorem action_run_keeps (a : Action) (p : Page) (hp : Handles p)
    (h1 : (pendingSubmits p).length ≤ 1) :
    Handles (a.run p) ∧ (pendingSubmits (a.run p)).length ≤ 1 := by
  cases a with
  | search i d =>
    refine ⟨handles_debounceSearch hp i d, ?_⟩
    show (pendingSubmits (debounceSearch i d p)).length ≤ 1
    rw [pendingSubmits_debounceSearch hp]
    simp
  | tick => exact ⟨handles_tick hp, h1⟩
  | fire k =>
    refine ⟨handles_fireOne hp k, ?_⟩
    show (pendingSubmits (fireOne k p)).length ≤ 1
    rcases fireOne_eq k p with h | ⟨cb, h⟩
    · rw [h]; exact h1
    · rw [h]
      exact le_trans (pendingSubmits_length_filter p _) h1
  | fireDue =>
    refine ⟨handles_fireDue hp, ?_⟩
    show (pendingSubmits (AdminJs.fireDue p)).length ≤ 1
    rw [fireDue_eq]
    exact le_trans (pendingSubmits_length_filter p _) h1

theorem runActions_keeps (acts : List Action) (p : Page) (hp : Handles p)
    (h1 : (pendingSubmits p).length ≤ 1) :
    Handles (runActions acts p) ∧ (pendingSubmits (runActions acts p)).length ≤ 1 := by
  induction acts generalizing p with
  | nil => exact ⟨hp, h1⟩
  | cons a r ih =>
    obtain ⟨h2, h3⟩ := action_run_keeps a p hp h1
    exact ih (a.run p) h2 h3

/-- C7: in every state reached from a loaded page by any interleaving of
calls of `debounceSearch` (any inputs, any delays), clock advances and timer
firings, at most one timer armed by `debounceSearch` is pending, and a
pending one is the timer `searchTimeout` refers to; right after a call the
only one pending is the timer that call armed. -/
theorem at_most_one_pending_submit (doc : Document) (t0 : Nat) (acts : List Action) :
    (pendingSubmits (runActions acts (load doc t0))).length ≤ 1 ∧
    (∀ t ∈ pendingSubmits (runActions acts (load doc t0)),
      (runActions acts (load doc t0)).searchTimeout = some t.id) ∧
    (∀ (input : Nat) (delay : Option Nat),
      pendingSubmits (debounceSearch input delay (runActions acts (load doc t0))) =
        [{ id := (runActions acts (load doc t0)).nextTimer,
           fireAt := (runActions acts (load doc t0)).now + timerDelay (delay.getD 500),
           cb := Callback.submitFormOf input }]) := by
  have h0 : (pendingSubmits (load doc t0)).length ≤ 1 := by
    have : pendingSubmits (load doc t0) = [] := by
      unfold pendingSubmits
      rw [List.filter_eq_nil_iff]
      intro t ht hs
      have := ((handles_load doc t0).shared t ht).mp hs
      obtain ⟨ts, hload, -, -⟩ := load_eq doc t0
      rw [hload] at this
      cases this
    rw [this]
    simp
  obtain ⟨h2, h3⟩ := runActions_keeps acts (load doc t0) (handles_load doc t0) h0
  refine ⟨h3, ?_, ?_⟩
  · intro t ht
    have hm := List.mem_filter.mp ht
    exact (h2.shared t hm.1).mp hm.2
  · intro input delay
    exact pendingSubmits_debounceSearch h2 input delay

theorem at_most_one_pending_submit_witness :
    (pendingSubmits (runActions
      [Action.search 1 none, Action.tick, Action.search 2 (some 0), Action.search 1 (some 3),
        Action.fireDue, Action.search 2 none]
      (load exSearch 0))).length ≤ 1 :=
  (at_most_one_pending_submit exSearch 0
    [Action.search 1 none, Action.tick, Action.search 2 (some 0), Action.search 1 (some 3),
      Action.fireDue, Action.search 2 none]).1

/-! ## Observations of a punctual run -/

theorem observe_append (g : Effect → Option Nat) (l1 l2 : List (Nat × Effect)) :
    observe g (l1 ++ l2) = observe g l1 ++ observe g l2 :=
  List.filterMap_append _ _ _

/-- Timers that are not of the observed kind do not count, the others must
be kept by the filter with their time. -/
theorem observe_map_filter (g : Effect → Option Nat) (E : Timer → Effect) (τ σ : Timer → Nat)
    (c : Timer → Bool) (l : List Timer)
    (h : ∀ t ∈ l, (g (E t)).isSome = true → c t = true ∧ τ t = σ t) :
    observe g ((l.filter c).map (fun t => (τ t, E t))) =
      observe g (l.map (fun t => (σ t, E t))) := by
  induction l with
  | nil => rfl
  | cons a r ih =>
    have ihr := ih (fun t ht => h t (List.mem_cons_of_mem _ ht))
    unfold observe at ihr ⊢
    cases hg : g (E a) with
    | none =>
      by_cases hc : c a = true
      · rw [List.filter_cons_of_pos hc]
        simp only [List.map_cons, List.filterMap_cons, hg, Option.map_none']
        exact ihr
      · rw [List.filter_cons_of_neg hc]
        simp only [List.map_cons, List.filterMap_cons, hg, Option.map_none']
        exact ihr
    | some b =>
      obtain ⟨hc, ht⟩ := h a (List.mem_cons_self _ _) (by rw [hg]; rfl)
      rw [List.filter_cons_of_pos hc]
      simp only [List.map_cons, List.filterMap_cons, hg, Option.map_some', ht]
      rw [ihr]

theorem observe_map_filter_nil (g : Effect → Option Nat) (E : Timer → Effect) (τ : Timer → Nat)
    (c : Timer → Bool) (l : List Timer)
    (h : ∀ t ∈ l, (g (E t)).isSome = true → c t = false) :
    observe g ((l.filter c).map (fun t => (τ t, E t))) = [] := by
  induction l with
  | nil => rfl
  | cons a r ih =>
    have ihr := ih (fun t ht => h t (List.mem_cons_of_mem _ ht))
    unfold observe at ihr ⊢
    by_cases hc : c a = true
    · rw [List.filter_cons_of_pos hc]
      cases hg : g (E a) with
      | none =>
        simp only [List.map_cons, List.filterMap_cons, hg, Option.map_none']
        exact ihr
      | some b =>
        have := h a (List.mem_cons_self _ _) (by rw [hg]; rfl)
        rw [hc] at this
        cases this
    · rw [List.filter_cons_of_neg hc]
      exact ihr

/-- One millisecond of a punctual run: the timers due at the new time run,
each at its due time. -/
theorem tick_fireDue_eq (p : Page) :
    fireDue (tick p) =
      { p with
        now := p.now + 1,
        timers := p.timers.filter (fun t => decide (p.now + 1 < t.fireAt)),
        log := p.log ++ (p.timers.filter (fun t => decide (t.fireAt ≤ p.now + 1))).map
          (fun t => (p.now + 1, effectOf p.doc t.cb)) } := by
  rw [fireDue_eq]
  rfl

theorem tick_fireDue_observe (g : Effect → Option Nat) (T : Nat) (p : Page) (hS : Punctual p)
    (hT : ∀ t ∈ p.timers, (g (effectOf p.doc t.cb)).isSome = true → t.fireAt = T) :
    observe g (fireDue (tick p)).log =
      observe g p.log ++ (if T = p.now + 1 then observe g (scheduled p) else []) ∧
    observe g (scheduled (fireDue (tick p))) =
      (if T = p.now + 1 then [] else observe g (scheduled p)) := by
  rw [tick_fireDue_eq]
  unfold scheduled
  simp only [observe_append]
  by_cases h : T = p.now + 1
  · rw [if_pos h, if_pos h]
    constructor
    · congr 1
      apply observe_map_filter
      intro t ht hg
      have := hT t ht hg
      refine ⟨by simp; omega, by omega⟩
    · apply observe_map_filter_nil
      intro t ht hg
      have := hT t ht hg
      simp; omega
  · rw [if_neg h, if_neg h]
    constructor
    · rw [observe_map_filter_nil, List.append_nil]
      intro t ht hg
      have := hT t ht hg
      have := hS t ht
      simp; omega
    · apply observe_map_filter
      intro t ht hg
      have := hT t ht hg
      have := hS t ht
      refine ⟨by simp; omega, rfl⟩

/-- The parts of the state that waiting does not change, and the clock. -/
theorem elapse_frame (n : Nat) (p : Page) :
    (elapse n p).doc = p.doc ∧ (elapse n p).now = p.now + n ∧
    (elapse n p).nextTimer = p.nextTimer ∧ (elapse n p).searchTimeout = p.searchTimeout ∧
    ∀ t ∈ (elapse n p).timers, t ∈ p.timers := by
  induction n with
  | zero => exact ⟨rfl, rfl, rfl, rfl, fun _ h => h⟩
  | succ n ih =>
    obtain ⟨h1, h2, h3, h4, h5⟩ := ih
    show (fireDue (tick (elapse n p))).doc = _ ∧ (fireDue (tick (elapse n p))).now = _ ∧
      (fireDue (tick (elapse n p))).nextTimer = _ ∧
      (fireDue (tick (elapse n p))).searchTimeout = _ ∧
      ∀ t ∈ (fireDue (tick (elapse n p))).timers, t ∈ p.timers
    rw [tick_fireDue_eq]
    refine ⟨h1, ?_, h3, h4, ?_⟩
    · simp only [h2]; omega
    · intro t ht
      exact h5 t (List.mem_filter.mp ht).1

theorem punctual_elapse {p : Page} (hS : Punctual p) (n : Nat) : Punctual (elapse n p) := by
  induction n with
  | zero => exact hS
  | succ n ih =>
    show Punctual (fireDue (tick (elapse n p)))
    rw [tick_fireDue_eq]
    intro t ht
    simpa using (List.mem_filter.mp ht).2

theorem handles_elapse {p : Page} (hp : Handles p) (n : Nat) : Handles (elapse n p) := by
  obtain ⟨-, -, h3, h4, h5⟩ := elapse_frame n p
  constructor
  · intro t ht
    rw [h3]
    exact hp.issued t (h5 t ht)
  · intro t ht
    rw [h4]
    exact hp.shared t (h5 t ht)

/-- Waiting in a punctual run, for one kind of effect whose pending timers
are all due at `T`: they run when the clock reaches `T`. -/
theorem elapse_observe (g : Effect → Option Nat) (T n : Nat) (p : Page) (hS : Punctual p)
    (hT : ∀ t ∈ p.timers, (g (effectOf p.doc t.cb)).isSome = true → t.fireAt = T) :
    observe g (elapse n p).log =
      observe g p.log ++ (if T ≤ p.now + n then observe g (scheduled p) else []) ∧
    observe g (scheduled (elapse n p)) =
      (if T ≤ p.now + n then [] else observe g (scheduled p)) := by
  induction n with
  | zero =>
    have hnone : T ≤ p.now → observe g (scheduled p) = [] := by
      intro hle
      have := observe_map_filter_nil g (fun t => effectOf p.doc t.cb) (fun t => t.fireAt)
        (fun _ => true) p.timers (by
          intro t ht hg
          have h1 := hT t ht hg
          have h2 := hS t ht
          omega)
      simpa [scheduled] using this
    by_cases h : T ≤ p.now
    · simp [elapse, h, hnone h]
    · simp [elapse, h]
  | succ n ih =>
    obtain ⟨ih1, ih2⟩ := ih
    obtain ⟨h1, h2, -, -, h5⟩ := elapse_frame n p
    have hT1 : ∀ t ∈ (elapse n p).timers,
        (g (effectOf (elapse n p).doc t.cb)).isSome = true → t.fireAt = T := by
      intro t ht hg
      rw [h1] at hg
      exact hT t (h5 t ht) hg
    obtain ⟨s1, s2⟩ := tick_fireDue_observe g T (elapse n p) (punctual_elapse hS n) hT1
    show observe g (fireDue (tick (elapse n p))).log = _ ∧
      observe g (scheduled (fireDue (tick (elapse n p)))) = _
    rw [s1, s2, ih1, ih2, h2]
    have e : p.now + (n + 1) = p.now + n + 1 := rfl
    rw [e]
    by_cases ha : T ≤ p.now + n
    · have hb : T ≤ p.now + n + 1 := by omega
      have hc : ¬ T = p.now + n + 1 := by omega
      simp [ha, hb, hc]
    · by_cases hc : T = p.now + n + 1
      · have hb : T ≤ p.now + n + 1 := by omega
        rw [if_neg ha, if_neg ha, if_pos hc, if_pos hc, if_pos hb, if_pos hb]
        simp
      · have hb : ¬ T ≤ p.now + n + 1 := by omega
        simp [ha, hb, hc]

theorem isSubmit_of_submitted (doc : Document) (t : Timer)
    (h : (Effect.submitted (effectOf doc t.cb)).isSome = true) : t.isSubmit = true := by
  unfold Timer.isSubmit
  cases hc : t.cb with
  | closeAlert a => rw [hc] at h; simp [effectOf, Effect.submitted] at h
  | submitFormOf i => rfl

theorem submitted_effectOf (doc : Document) (i : Nat) :
    Effect.submitted (effectOf doc (Callback.submitFormOf i)) = submitTarget doc i := by
  simp only [effectOf]
  cases hf : submitTarget doc i <;> rfl

theorem dismissed_effectOf (doc : Document) (i : Nat) :
    Effect.dismissed (effectOf doc (Callback.submitFormOf i)) = none := by
  simp only [effectOf]
  cases hf : submitTarget doc i <;> rfl

theorem observe_singleton (g : Effect → Option Nat) (t : Nat) (e : Effect) :
    observe g [(t, e)] = (g e).toList.map (fun b => (t, b)) := by
  unfold observe
  cases hg : g e <;> simp [hg]

theorem not_isSubmit_of_dismissed (doc : Document) (t : Timer)
    (h : (Effect.dismissed (effectOf doc t.cb)).isSome = true) : t.isSubmit = false := by
  unfold Timer.isSubmit
  cases hc : t.cb with
  | closeAlert a => rfl
  | submitFormOf i =>
    rw [hc, dismissed_effectOf] at h
    cases h

theorem clearTimeout_timers_eq (h : Option Nat) (p : Page) :
    (clearTimeout h p).timers = p.timers.filter (fun t => !(h == some t.id)) := by
  cases h with
  | none => simp [clearTimeout]
  | some k =>
    simp only [clearTimeout]
    apply List.filter_congr
    intro t _
    by_cases hk : t.id = k
    · simp [hk]
    · have : ¬ k = t.id := fun e => hk e.symm
      simp [bne, hk, this]

/-- A call of `debounceSearch` in a punctual run, followed by the event loop
running what is due: the timer just armed runs at once when its delay is 0. -/
theorem search_step_eq (input : Nat) (delay : Option Nat) (p : Page) (hS : Punctual p) :
    fireDue (debounceSearch input delay p) =
      { p with
        timers := (clearTimeout p.searchTimeout p).timers ++
          (if timerDelay (delay.getD 500) = 0 then []
           else [{ id := p.nextTimer, fireAt := p.now + timerDelay (delay.getD 500),
                   cb := Callback.submitFormOf input }]),
        nextTimer := p.nextTimer + 1,
        searchTimeout := some p.nextTimer,
        log := p.log ++
          (if timerDelay (delay.getD 500) = 0 then [(p.now, effectOf p.doc (Callback.submitFormOf input))]
           else []) } := by
  rw [fireDue_eq, debounceSearch_eq]
  have hkeep : (clearTimeout p.searchTimeout p).timers.filter
      (fun t => decide (p.now < t.fireAt)) = (clearTimeout p.searchTimeout p).timers := by
    rw [List.filter_eq_self]
    intro t ht
    simpa using hS t (clearTimeout_timers_subset _ _ _ ht).1
  have hdue : (clearTimeout p.searchTimeout p).timers.filter
      (fun t => decide (t.fireAt ≤ p.now)) = [] := by
    rw [List.filter_eq_nil_iff]
    intro t ht
    have := hS t (clearTimeout_timers_subset _ _ _ ht).1
    simp; omega
  simp only [List.filter_append, hkeep, hdue, List.nil_append]
  by_cases hd : timerDelay (delay.getD 500) = 0
  · simp [hd]
  · have : 0 < timerDelay (delay.getD 500) := Nat.pos_of_ne_zero hd
    simp [hd, this]

/-- Once the event loop has run what is due, no pending timer is due. -/
theorem punctual_fireDue (p : Page) : Punctual (fireDue p) := by
  rw [fireDue_eq]
  intro t ht
  simpa using (List.mem_filter.mp ht).2

/-- A call of `debounceSearch` neither runs nor cancels a dismissal timer. -/
theorem search_observe_dismissed (input : Nat) (delay : Option Nat) (p : Page)
    (hp : Handles p) (hS : Punctual p) :
    dismissals (fireDue (debounceSearch input delay p)).log = dismissals p.log ∧
    observe Effect.dismissed (scheduled (fireDue (debounceSearch input delay p))) =
      observe Effect.dismissed (scheduled p) ∧
    ∀ t ∈ (fireDue (debounceSearch input delay p)).timers,
      (Effect.dismissed (effectOf p.doc t.cb)).isSome = true → t ∈ p.timers := by
  rw [search_step_eq input delay p hS]
  have hnew : Effect.dismissed (effectOf p.doc (Callback.submitFormOf input)) = none :=
    dismissed_effectOf p.doc input
  refine ⟨?_, ?_, ?_⟩
  · unfold dismissals
    simp only [observe_append]
    by_cases hd : timerDelay (delay.getD 500) = 0
    · simp [hd, observe, hnew]
    · simp [hd, observe]
  · unfold scheduled
    simp only [List.map_append, observe_append, clearTimeout_timers_eq]
    have h1 := observe_map_filter Effect.dismissed (fun t => effectOf p.doc t.cb)
      (fun t => t.fireAt) (fun t => t.fireAt) (fun t => !(p.searchTimeout == some t.id)) p.timers
      (by
        intro t ht hg
        have hns := not_isSubmit_of_dismissed p.doc t hg
        have := hp.shared t ht
        rw [hns] at this
        have hne : ¬ p.searchTimeout = some t.id := fun e => by simpa using this.mpr e
        exact ⟨by simpa using hne, rfl⟩)
    rw [h1]
    by_cases hd : timerDelay (delay.getD 500) = 0
    · simp [hd, observe]
    · simp [hd, observe, hnew]
  · intro t ht hg
    simp only [List.mem_append] at ht
    rcases ht with ht | ht
    · exact (clearTimeout_timers_subset _ _ _ ht).1
    · by_cases hd : timerDelay (delay.getD 500) = 0
      · simp [hd] at ht
      · simp only [hd, if_false, List.mem_singleton] at ht
        rw [ht, hnew] at hg
        cases hg

/-- A call of `debounceSearch` cancels the pending submission and arms one
for the form of its input, due after its delay. -/
theorem search_observe_submitted (input : Nat) (delay : Option Nat) (p : Page)
    (hp : Handles p) (hS : Punctual p) :
    submissions (fireDue (debounceSearch input delay p)).log =
      submissions p.log ++
        (if timerDelay (delay.getD 500) = 0 then (submitTarget p.doc input).toList.map (fun f => (p.now, f))
         else []) ∧
    observe Effect.submitted (scheduled (fireDue (debounceSearch input delay p))) =
      (if timerDelay (delay.getD 500) = 0 then []
       else (submitTarget p.doc input).toList.map (fun f => (p.now + timerDelay (delay.getD 500), f))) ∧
    ∀ t ∈ (fireDue (debounceSearch input delay p)).timers,
      (Effect.submitted (effectOf p.doc t.cb)).isSome = true →
        t.fireAt = p.now + timerDelay (delay.getD 500) := by
  rw [search_step_eq input delay p hS]
  have hold : ∀ t ∈ (clearTimeout p.searchTimeout p).timers,
      (Effect.submitted (effectOf p.doc t.cb)).isSome = true → False := by
    intro t ht hg
    have h1 := isSubmit_of_submitted p.doc t hg
    rw [handles_clear_no_submit hp t ht] at h1
    cases h1
  refine ⟨?_, ?_, ?_⟩
  · unfold submissions
    simp only [observe_append]
    by_cases hd : timerDelay (delay.getD 500) = 0
    · simp only [hd, if_true]
      rw [observe_singleton, submitted_effectOf]
    · simp [hd, observe]
  · unfold scheduled
    simp only [List.map_append, observe_append]
    have h1 : observe Effect.submitted
        ((clearTimeout p.searchTimeout p).timers.map
          (fun t => (t.fireAt, effectOf p.doc t.cb))) = [] := by
      have := observe_map_filter_nil Effect.submitted (fun t => effectOf p.doc t.cb)
        (fun t => t.fireAt) (fun _ => true) (clearTimeout p.searchTimeout p).timers
        (fun t ht hg => (hold t ht hg).elim)
      simpa using this
    rw [h1]
    by_cases hd : timerDelay (delay.getD 500) = 0
    · simp [hd, observe]
    · simp only [hd, if_false, List.nil_append, List.map_cons, List.map_nil]
      rw [observe_singleton, submitted_effectOf]
  · intro t ht hg
    simp only [List.mem_append] at ht
    rcases ht with ht | ht
    · exact (hold t ht hg).elim
    · by_cases hd : timerDelay (delay.getD 500) = 0
      · simp [hd] at ht
      · simp only [hd, if_false, List.mem_singleton] at ht
        rw [ht]

/-- The frame of a call of `debounceSearch` in a punctual run. -/
theorem search_frame (input : Nat) (delay : Option Nat) (p : Page) :
    (fireDue (debounceSearch input delay p)).doc = p.doc ∧
    (fireDue (debounceSearch input delay p)).now = p.now := by
  rw [fireDue_eq, debounceSearch_eq]
  exact ⟨rfl, rfl⟩

/-- A call of `debounceSearch` followed by a wait of `n` ms: the form of the
input is submitted, `d` ms after the call, if and only if `d ≤ n`. -/
theorem search_then_wait (input : Nat) (delay : Option Nat) (n : Nat) (p : Page)
    (hp : Handles p) (hS : Punctual p) :
    Handles (elapse n (fireDue (debounceSearch input delay p))) ∧
    Punctual (elapse n (fireDue (debounceSearch input delay p))) ∧
    (elapse n (fireDue (debounceSearch input delay p))).doc = p.doc ∧
    (elapse n (fireDue (debounceSearch input delay p))).now = p.now + n ∧
    submissions (elapse n (fireDue (debounceSearch input delay p))).log =
      submissions p.log ++
        (if timerDelay (delay.getD 500) ≤ n
         then (submitTarget p.doc input).toList.map (fun f => (p.now + timerDelay (delay.getD 500), f))
         else []) := by
  obtain ⟨hdoc, hnow⟩ := search_frame input delay p
  obtain ⟨s1, s2, s3⟩ := search_observe_submitted input delay p hp hS
  have hS1 := punctual_fireDue (debounceSearch input delay p)
  have hp1 := handles_fireDue (handles_debounceSearch hp input delay)
  obtain ⟨f1, f2, -, -, -⟩ := elapse_frame n (fireDue (debounceSearch input delay p))
  have hT : ∀ t ∈ (fireDue (debounceSearch input delay p)).timers,
      (Effect.submitted (effectOf (fireDue (debounceSearch input delay p)).doc t.cb)).isSome
        = true → t.fireAt = p.now + timerDelay (delay.getD 500) := by
    intro t ht hg
    rw [hdoc] at hg
    exact s3 t ht hg
  obtain ⟨e1, -⟩ := elapse_observe Effect.submitted (p.now + timerDelay (delay.getD 500)) n _ hS1 hT
  refine ⟨handles_elapse hp1 n, punctual_elapse hS1 n, by rw [f1, hdoc], by rw [f2, hnow], ?_⟩
  unfold submissions at s1 ⊢
  rw [e1, s1, s2, hnow]
  by_cases hd : timerDelay (delay.getD 500) = 0
  · simp [hd]
  · by_cases hn : timerDelay (delay.getD 500) ≤ n
    · simp [hd, hn]
    · simp [hd, hn]

/-! ## Alert auto-dismiss -/

/-- One step of a punctual run, seen from the dismissal timers, all due at
`T`: they run when the clock reaches `T` and nothing else touches them. -/
theorem step_run_dismissals (T : Nat) (s : Step) (p : Page) (hp : Handles p) (hS : Punctual p)
    (hT : ∀ t ∈ p.timers, (Effect.dismissed (effectOf p.doc t.cb)).isSome = true →
      t.fireAt = T) :
    Handles (s.run p) ∧ Punctual (s.run p) ∧ (s.run p).doc = p.doc ∧
    (s.run p).now = p.now + waited [s] ∧
    (∀ t ∈ (s.run p).timers, (Effect.dismissed (effectOf p.doc t.cb)).isSome = true →
      t.fireAt = T) ∧
    dismissals (s.run p).log = dismissals p.log ++
      (if T ≤ p.now + waited [s] then observe Effect.dismissed (scheduled p) else []) ∧
    observe Effect.dismissed (scheduled (s.run p)) =
      (if T ≤ p.now + waited [s] then [] else observe Effect.dismissed (scheduled p)) := by
  have hnone : T ≤ p.now → observe Effect.dismissed (scheduled p) = [] := by
    intro hle
    have := observe_map_filter_nil Effect.dismissed (fun t => effectOf p.doc t.cb)
      (fun t => t.fireAt) (fun _ => true) p.timers (by
        intro t ht hg
        have h1 := hT t ht hg
        have h2 := hS t ht
        omega)
    simpa [scheduled] using this
  cases s with
  | wait n =>
    obtain ⟨f1, f2, -, -, f5⟩ := elapse_frame n p
    obtain ⟨e1, e2⟩ := elapse_observe Effect.dismissed T n p hS hT
    refine ⟨handles_elapse hp n, punctual_elapse hS n, f1, ?_, ?_, ?_, ?_⟩
    · simpa [waited] using f2
    · intro t ht hg
      exact hT t (f5 t ht) hg
    · simpa [waited, dismissals] using e1
    · simpa [waited] using e2
  | search i d =>
    obtain ⟨f1, f2⟩ := search_frame i d p
    obtain ⟨s1, s2, s3⟩ := search_observe_dismissed i d p hp hS
    refine ⟨handles_fireDue (handles_debounceSearch hp i d), punctual_fireDue _, f1, ?_, ?_, ?_, ?_⟩
    · simpa [waited] using f2
    · intro t ht hg
      exact hT t (s3 t ht hg) hg
    · show dismissals (fireDue (debounceSearch i d p)).log = _
      rw [s1]
      by_cases h : T ≤ p.now
      · simp [waited, h, hnone h]
      · simp [waited, h]
    · show observe Effect.dismissed (scheduled (fireDue (debounceSearch i d p))) = _
      rw [s2]
      by_cases h : T ≤ p.now
      · simp [waited, h, hnone h]
      · simp [waited, h]

theorem waited_cons (s : Step) (r : List Step) : waited (s :: r) = waited [s] + waited r := by
  cases s <;> simp [waited]

theorem runSteps_dismissals (T : Nat) (steps : List Step) (p : Page) (hp : Handles p)
    (hS : Punctual p)
    (hT : ∀ t ∈ p.timers, (Effect.dismissed (effectOf p.doc t.cb)).isSome = true →
      t.fireAt = T) :
    dismissals (runSteps steps p).log = dismissals p.log ++
      (if T ≤ p.now + waited steps then observe Effect.dismissed (scheduled p) else []) := by
  induction steps generalizing p with
  | nil =>
    have hnone : T ≤ p.now → observe Effect.dismissed (scheduled p) = [] := by
      intro hle
      have := observe_map_filter_nil Effect.dismissed (fun t => effectOf p.doc t.cb)
        (fun t => t.fireAt) (fun _ => true) p.timers (by
          intro t ht hg
          have h1 := hT t ht hg
          have h2 := hS t ht
          omega)
      simpa [scheduled] using this
    by_cases h : T ≤ p.now
    · simp [runSteps, waited, h, hnone h]
    · simp [runSteps, waited, h]
  | cons s r ih =>
    obtain ⟨h1, h2, h3, h4, h5, h6, h7⟩ := step_run_dismissals T s p hp hS hT
    have hT1 : ∀ t ∈ (s.run p).timers,
        (Effect.dismissed (effectOf (s.run p).doc t.cb)).isSome = true → t.fireAt = T := by
      intro t ht hg
      rw [h3] at hg
      exact h5 t ht hg
    show dismissals (runSteps r (s.run p)).log = _
    rw [ih (s.run p) h1 h2 hT1, h6, h7, h4, waited_cons s r]
    by_cases ha : T ≤ p.now + waited [s]
    · have hb : T ≤ p.now + waited [s] + waited r := by omega
      have hc : T ≤ p.now + (waited [s] + waited r) := by omega
      simp [ha, hb, hc]
    · by_cases hb : T ≤ p.now + waited [s] + waited r
      · have hc : T ≤ p.now + (waited [s] + waited r) := by omega
        simp [ha, hb, hc]
      · have hc : ¬ T ≤ p.now + (waited [s] + waited r) := by omega
        simp [ha, hb, hc]

theorem nodup_querySelectorAll (doc : Document) (sel : Element → Bool) :
    (querySelectorAll doc sel).Nodup :=
  (List.nodup_range doc.length).filter _

/-- C6: on a page loaded at time `t0`, whatever calls of `debounceSearch`
and waits follow, the dismissal calls made are none before `t0 + 5000` and,
from then on, exactly one per element that had class `alert` and not
`alert-permanent` at page-ready, each made at `t0 + 5000` on that element;
no other element is ever the target of one. -/
theorem alerts_dismissed_once (doc : Document) (t0 : Nat) (steps : List Step) :
    dismissals (runSteps steps (load doc t0)).log =
      (if 5000 ≤ waited steps
       then (querySelectorAll doc selAlert).map (fun a => (t0 + 5000, a)) else []) ∧
    (dismissals (runSteps steps (load doc t0)).log).Nodup ∧
    (∀ (time a : Nat), (time, a) ∈ dismissals (runSteps steps (load doc t0)).log ↔
      5000 ≤ waited steps ∧ time = t0 + 5000 ∧
      ∃ e : Element, doc[a]? = some e ∧ "alert" ∈ e.classes ∧ "alert-permanent" ∉ e.classes) := by
  obtain ⟨ts, hload, hmap, hid⟩ := load_eq doc t0
  have hcb : ∀ t ∈ ts, t.fireAt = t0 + 5000 ∧ ∃ a, t.cb = Callback.closeAlert a := by
    intro t ht
    have hm : (t.fireAt, t.cb) ∈ ts.map (fun t => (t.fireAt, t.cb)) := List.mem_map_of_mem _ ht
    rw [hmap] at hm
    obtain ⟨a, -, ha⟩ := List.mem_map.mp hm
    exact ⟨(congrArg Prod.fst ha).symm, a, (congrArg Prod.snd ha).symm⟩
  have hS : Punctual (load doc t0) := by
    rw [hload]
    intro t ht
    have := (hcb t ht).1
    show t0 < t.fireAt
    omega
  have hT : ∀ t ∈ (load doc t0).timers,
      (Effect.dismissed (effectOf (load doc t0).doc t.cb)).isSome = true →
        t.fireAt = t0 + 5000 := by
    rw [hload]
    intro t ht _
    exact (hcb t ht).1
  have hlog : dismissals (load doc t0).log = [] := by rw [hload]; rfl
  have hnow : (load doc t0).now = t0 := by rw [hload]
  have hsched : observe Effect.dismissed (scheduled (load doc t0)) =
      (querySelectorAll doc selAlert).map (fun a => (t0 + 5000, a)) := by
    rw [hload]
    unfold scheduled observe
    have h1 : ts.map (fun t => (t.fireAt, effectOf doc t.cb)) =
        (ts.map (fun t => (t.fireAt, t.cb))).map (fun x => (x.1, effectOf doc x.2)) := by
      rw [List.map_map]; rfl
    show List.filterMap _ (ts.map (fun t => (t.fireAt, effectOf doc t.cb))) = _
    rw [h1, hmap, List.map_map, List.filterMap_map]
    rw [← List.filterMap_eq_map]
    rfl
  have hmain := runSteps_dismissals (t0 + 5000) steps (load doc t0) (handles_load doc t0) hS hT
  rw [hlog, hnow, hsched, List.nil_append] at hmain
  have hmain2 : dismissals (runSteps steps (load doc t0)).log =
      (if 5000 ≤ waited steps
       then (querySelectorAll doc selAlert).map (fun a => (t0 + 5000, a)) else []) := by
    rw [hmain]
    by_cases h : 5000 ≤ waited steps
    · have : t0 + 5000 ≤ t0 + waited steps := by omega
      simp [h, this]
    · have : ¬ t0 + 5000 ≤ t0 + waited steps := by omega
      simp [h, this]
  refine ⟨hmain2, ?_, ?_⟩
  · rw [hmain2]
    by_cases h : 5000 ≤ waited steps
    · rw [if_pos h]
      apply List.Nodup.map _ (nodup_querySelectorAll doc selAlert)
      intro a b hab
      exact (Prod.mk.inj hab).2
    · rw [if_neg h]
      exact List.nodup_nil
  · intro time a
    rw [hmain2]
    by_cases h : 5000 ≤ waited steps
    · rw [if_pos h]
      simp only [List.mem_map, Prod.mk.injEq, mem_querySelectorAll, h, true_and]
      constructor
      · rintro ⟨b, ⟨e, he, hsel⟩, h1, rfl⟩
        refine ⟨h1.symm, e, he, ?_⟩
        simpa [selAlert] using hsel
      · rintro ⟨h1, e, he, hc⟩
        refine ⟨a, ⟨e, he, ?_⟩, h1.symm, rfl⟩
        simpa [selAlert] using hc
    · rw [if_neg h]
      simp [h]

theorem alerts_dismissed_once_witness :
    dismissals (runSteps [Step.wait 4000, Step.search 0 none, Step.wait 1000]
      (load exAlerts 10)).log = [(5010, 0), (5010, 3)] :=
  (alerts_dismissed_once exAlerts 10 [Step.wait 4000, Step.search 0 none, Step.wait 1000]).1.trans
    (by decide)

/-! ## Debounced search -/

theorem lastInput_cons (first : Nat) (gi : Nat × Nat) (rest : List (Nat × Nat)) :
    lastInput first (gi :: rest) = lastInput gi.2 rest := by
  unfold lastInput
  cases rest with
  | nil => rfl
  | cons b r =>
    simp only [List.map_cons, List.getLast?_cons_cons]
    rw [List.getLast?_eq_getLast _ (List.cons_ne_nil _ _)]
    rfl

/-- A burst of calls less than the delay apart, followed by a wait of `n`
ms: only the last call leads to a submission, `d` ms after it. -/
theorem burst_then_wait (delay : Option Nat) (n : Nat) (rest : List (Nat × Nat)) (first : Nat)
    (p : Page) (hp : Handles p) (hS : Punctual p)
    (hgap : ∀ gi ∈ rest, gi.1 < timerDelay (delay.getD 500)) :
    submissions (runSteps (burstSteps delay first rest ++ [Step.wait n]) p).log =
      submissions p.log ++
        (if timerDelay (delay.getD 500) ≤ n
         then (submitTarget p.doc (lastInput first rest)).toList.map
           (fun f => (p.now + (rest.map Prod.fst).sum + timerDelay (delay.getD 500), f))
         else []) := by
  induction rest generalizing first p with
  | nil =>
    obtain ⟨-, -, -, -, h⟩ := search_then_wait first delay n p hp hS
    simpa [burstSteps, runSteps, Step.run, lastInput] using h
  | cons gi r ih =>
    obtain ⟨h1, h2, h3, h4, h5⟩ := search_then_wait first delay gi.1 p hp hS
    have hg : ¬ timerDelay (delay.getD 500) ≤ gi.1 := by
      have := hgap gi (List.mem_cons_self _ _)
      omega
    rw [if_neg hg, List.append_nil] at h5
    have hr : ∀ x ∈ r, x.1 < timerDelay (delay.getD 500) := fun x hx => hgap x (List.mem_cons_of_mem _ hx)
    have e : runSteps (burstSteps delay first (gi :: r) ++ [Step.wait n]) p =
        runSteps (burstSteps delay gi.2 r ++ [Step.wait n])
          (elapse gi.1 (fireDue (debounceSearch first delay p))) := by
      simp [burstSteps, runSteps, Step.run]
    rw [e, ih gi.2 _ h1 h2 hr, h5, h3, h4, lastInput_cons]
    simp [Nat.add_assoc]

/-- A loaded page left alone for `w` ms: no submission was made, and the
state is one of a punctual run. -/
theorem load_then_wait (doc : Document) (t0 w : Nat) :
    Handles (elapse w (load doc t0)) ∧ Punctual (elapse w (load doc t0)) ∧
    (elapse w (load doc t0)).doc = doc ∧ (elapse w (load doc t0)).now = t0 + w ∧
    submissions (elapse w (load doc t0)).log = [] := by
  obtain ⟨ts, hload, hmap, -⟩ := load_eq doc t0
  have hcb : ∀ t ∈ ts, t.fireAt = t0 + 5000 ∧ ∃ a, t.cb = Callback.closeAlert a := by
    intro t ht
    have hm : (t.fireAt, t.cb) ∈ ts.map (fun t => (t.fireAt, t.cb)) := List.mem_map_of_mem _ ht
    rw [hmap] at hm
    obtain ⟨a, -, ha⟩ := List.mem_map.mp hm
    exact ⟨(congrArg Prod.fst ha).symm, a, (congrArg Prod.snd ha).symm⟩
  have hS : Punctual (load doc t0) := by
    rw [hload]
    intro t ht
    have := (hcb t ht).1
    show t0 < t.fireAt
    omega
  have hT : ∀ t ∈ (load doc t0).timers,
      (Effect.submitted (effectOf (load doc t0).doc t.cb)).isSome = true → t.fireAt = 0 := by
    rw [hload]
    intro t ht hg
    obtain ⟨-, a, ha⟩ := hcb t ht
    have h1 := isSubmit_of_submitted _ t hg
    simp [Timer.isSubmit, ha] at h1
  obtain ⟨e1, -⟩ := elapse_observe Effect.submitted 0 w (load doc t0) hS hT
  obtain ⟨f1, f2, -, -, -⟩ := elapse_frame w (load doc t0)
  have hsched : observe Effect.submitted (scheduled (load doc t0)) = [] := by
    have := observe_map_filter_nil Effect.submitted
      (fun t => effectOf (load doc t0).doc t.cb) (fun t => t.fireAt) (fun _ => true)
      (load doc t0).timers (by
        intro t ht hg
        have h1 := hT t ht hg
        have h2 := hS t ht
        omega)
    simpa [scheduled] using this
  have hlog : submissions (elapse w (load doc t0)).log = [] := by
    unfold submissions
    rw [e1, hsched]
    rw [hload]
    simp [observe]
  exact ⟨handles_elapse (handles_load doc t0) w, punctual_elapse hS w, by rw [f1, hload], by rw [f2, hload], hlog⟩

/-- Two calls of `debounceSearch` on a loaded page, the second less than the
first delay after the first, then a wait of `n` ms: the only submission is
that of the form owning the second input, `d` after the second call. -/
theorem two_searches_then_wait (doc : Document) (t0 w a g b n : Nat) (da db : Option Nat)
    (hg : g < timerDelay (da.getD 500)) :
    submissions
        (runSteps [Step.wait w, Step.search a da, Step.wait g, Step.search b db, Step.wait n]
          (load doc t0)).log =
      (if timerDelay (db.getD 500) ≤ n
       then (submitTarget doc b).toList.map (fun f => (t0 + w + g + timerDelay (db.getD 500), f)) else []) := by
  obtain ⟨h1, h2, h3, h4, h5⟩ := load_then_wait doc t0 w
  obtain ⟨k1, k2, k3, k4, k5⟩ := search_then_wait a da g (elapse w (load doc t0)) h1 h2
  have hng : ¬ timerDelay (da.getD 500) ≤ g := by omega
  rw [if_neg hng, List.append_nil, h5] at k5
  obtain ⟨-, -, -, -, m5⟩ := search_then_wait b db n _ k1 k2
  show submissions (elapse n (fireDue (debounceSearch b db
    (elapse g (fireDue (debounceSearch a da (elapse w (load doc t0)))))))).log = _
  rw [m5, k5, k3, k4, h3, h4]
  rfl

/-- The form submitted by `input.form.submit()` when the input has an owning
form whose `submit` method is not shadowed. -/
theorem submitTarget_of_form (doc : Document) (input f : Nat) (hform : formOf doc input = some f)
    (hmeth : submitShadowed doc f = false) : submitTarget doc input = some f := by
  unfold submitTarget
  rw [hform]
  simp [hmeth]

/-- C1 (as amended): on a loaded page, after any wait, `N ≥ 1` calls of
`debounceSearch` with the same delay `d` below 2^31 ms (500 when omitted),
each less than `d` after the one before, the input of the last call being
owned by a form whose `submit` method no control named `submit` shadows,
lead to exactly one form submission in total: that of this form, made `d`
after the last call and not before. -/
theorem debounce_burst_submits_once (doc : Document) (t0 w n first : Nat)
    (rest : List (Nat × Nat)) (delay : Option Nat) (f : Nat)
    (hd : delay.getD 500 < 2147483648)
    (hgap : ∀ gi ∈ rest, gi.1 < delay.getD 500)
    (hform : formOf doc (lastInput first rest) = some f)
    (hmeth : submitShadowed doc f = false) :
    submissions
        (runSteps (Step.wait w :: (burstSteps delay first rest ++ [Step.wait n]))
          (load doc t0)).log =
      (if delay.getD 500 ≤ n
       then [(t0 + w + (rest.map Prod.fst).sum + delay.getD 500, f)] else []) := by
  obtain ⟨h1, h2, hdoc, hnow, hlog⟩ := load_then_wait doc t0 w
  have hgap1 : ∀ gi ∈ rest, gi.1 < timerDelay (delay.getD 500) := by
    rw [timerDelay_of_lt _ hd]
    exact hgap
  have hmain := burst_then_wait delay n rest first (elapse w (load doc t0)) h1 h2 hgap1
  show submissions (runSteps (burstSteps delay first rest ++ [Step.wait n])
    (elapse w (load doc t0))).log = _
  rw [hmain, hlog, hdoc, hnow, submitTarget_of_form doc _ f hform hmeth,
    timerDelay_of_lt _ hd]
  by_cases h : delay.getD 500 ≤ n <;> simp [h]

theorem debounce_burst_submits_once_witness :
    (none : Option Nat).getD 500 < 2147483648 ∧
    (∀ gi ∈ [(100, 2), (499, 1)], gi.1 < (none : Option Nat).getD 500) ∧
    formOf exSearch (lastInput 1 [(100, 2), (499, 1)]) = some 0 ∧
    submitShadowed exSearch 0 = false ∧
    submissions
        (runSteps (Step.wait 7 :: (burstSteps none 1 [(100, 2), (499, 1)] ++ [Step.wait 600]))
          (load exSearch 0)).log =
      (if (none : Option Nat).getD 500 ≤ 600
       then [(0 + 7 + ([(100, 2), (499, 1)].map Prod.fst).sum + (none : Option Nat).getD 500, 0)]
       else []) :=
  ⟨by decide, by decide, by decide, by decide,
    debounce_burst_submits_once exSearch 0 7 600 1 [(100, 2), (499, 1)] none 0
      (by decide) (by decide) (by decide) (by decide)⟩

/-- C1 fails in three cases, each with a single call made at time 0.  With
the delay 2^31 the form is submitted at time 0, not 2^31 ms later.  With an
input that belongs to no form nothing is submitted.  With a form whose
button is named `submit` nothing is submitted either. -/
theorem debounce_burst_fails :
    submissions
        (runSteps (Step.wait 0 :: (burstSteps (some 2147483648) 1 [] ++ [Step.wait 0]))
          (load exSearch 0)).log = [(0, 0)] ∧
    formOf exOrphan 0 = none ∧
    submissions
        (runSteps (Step.wait 0 :: (burstSteps (some 2) 0 [] ++ [Step.wait 3]))
          (load exOrphan 0)).log = [] ∧
    formOf exShadowed 1 = some 0 ∧ submitShadowed exShadowed 0 = true ∧
    submissions
        (runSteps (Step.wait 0 :: (burstSteps (some 2) 1 [] ++ [Step.wait 3]))
          (load exShadowed 0)).log = [] := by
  decide

/-- C9 (as amended): on a loaded page, after a call of `debounceSearch` on
input `a` and, before its delay has elapsed, a call on input `b` with delay
`d` (500 when omitted), both delays being below 2^31 ms and `b` being owned
by a form whose `submit` method no control named `submit` shadows, exactly
one submission is made in total, that of the form owning `b`, `d` after the
second call and not before; the form owning `a` is not submitted at all
when it is another form than the one owning `b`. -/
theorem last_call_wins (doc : Document) (t0 w a g b n fb : Nat) (da db : Option Nat)
    (hda : da.getD 500 < 2147483648) (hdb : db.getD 500 < 2147483648)
    (hg : g < da.getD 500) (hform : formOf doc b = some fb)
    (hmeth : submitShadowed doc fb = false) :
    submissions
        (runSteps [Step.wait w, Step.search a da, Step.wait g, Step.search b db, Step.wait n]
          (load doc t0)).log =
      (if db.getD 500 ≤ n then [(t0 + w + g + db.getD 500, fb)] else []) ∧
    ∀ fa : Nat, formOf doc a = some fa → fa ≠ fb → ∀ time : Nat,
      (time, fa) ∉ submissions
        (runSteps [Step.wait w, Step.search a da, Step.wait g, Step.search b db, Step.wait n]
          (load doc t0)).log := by
  have hg1 : g < timerDelay (da.getD 500) := by
    rw [timerDelay_of_lt _ hda]
    exact hg
  have h := two_searches_then_wait doc t0 w a g b n da db hg1
  rw [submitTarget_of_form doc b fb hform hmeth, timerDelay_of_lt _ hdb] at h
  have h2 : submissions
      (runSteps [Step.wait w, Step.search a da, Step.wait g, Step.search b db, Step.wait n]
        (load doc t0)).log =
      (if db.getD 500 ≤ n then [(t0 + w + g + db.getD 500, fb)] else []) := by
    rw [h]
    by_cases hn : db.getD 500 ≤ n <;> simp [hn]
  refine ⟨h2, ?_⟩
  intro fa _ hne time hmem
  rw [h2] at hmem
  by_cases hn : db.getD 500 ≤ n
  · rw [if_pos hn] at hmem
    simp only [List.mem_singleton, Prod.mk.injEq] at hmem
    exact hne hmem.2
  · rw [if_neg hn] at hmem
    cases hmem

theorem last_call_wins_witness :
    (none : Option Nat).getD 500 < 2147483648 ∧ (some 300 : Option Nat).getD 500 < 2147483648 ∧
    100 < (none : Option Nat).getD 500 ∧ formOf exTwoForms 3 = some 1 ∧
    submitShadowed exTwoForms 1 = false ∧
    submissions
        (runSteps [Step.wait 0, Step.search 2 none, Step.wait 100, Step.search 3 (some 300),
          Step.wait 300] (load exTwoForms 0)).log =
      (if (some 300 : Option Nat).getD 500 ≤ 300
       then [(0 + 0 + 100 + (some 300 : Option Nat).getD 500, 1)] else []) ∧
    (400, 0) ∉ submissions
        (runSteps [Step.wait 0, Step.search 2 none, Step.wait 100, Step.search 3 (some 300),
          Step.wait 300] (load exTwoForms 0)).log :=
  ⟨by decide, by decide, by decide, by decide, by decide,
    (last_call_wins exTwoForms 0 0 2 100 3 300 1 none (some 300)
      (by decide) (by decide) (by decide) (by decide) (by decide)).1,
    (last_call_wins exTwoForms 0 0 2 100 3 300 1 none (some 300)
      (by decide) (by decide) (by decide) (by decide) (by decide)).2 0 (by decide) (by decide)
      400⟩

/-- C9 fails in four cases.  When both inputs are owned by the same form, a
call on input 1 and, 100 ms later, a call on input 2 lead to a submission of
the form owning input 1.  On a page with two forms, a first call with the
delay 2^31 submits the form of the first input at once, before the second
call; a second call with the delay 2^31 submits the form of the second
input at the time of that call, not 2^31 ms later; and a second call on
the input of the form whose button is named `submit` submits nothing. -/
theorem last_call_claim_fails :
    ((1 : Nat) ≠ 2 ∧ formOf exSearch 1 = some 0 ∧ formOf exSearch 2 = some 0 ∧
      100 < (none : Option Nat).getD 500 ∧
      (600, 0) ∈ submissions
        (runSteps [Step.wait 0, Step.search 1 none, Step.wait 100, Step.search 2 none,
          Step.wait 500] (load exSearch 0)).log) ∧
    (formOf exTwoForms 2 = some 0 ∧ formOf exTwoForms 3 = some 1 ∧
      submissions
        (runSteps [Step.wait 0, Step.search 2 (some 2147483648), Step.wait 1,
          Step.search 3 (some 2), Step.wait 2] (load exTwoForms 0)).log = [(0, 0), (3, 1)]) ∧
    submissions
        (runSteps [Step.wait 0, Step.search 2 (some 2), Step.wait 1,
          Step.search 3 (some 2147483648), Step.wait 0] (load exTwoForms 0)).log = [(1, 1)] ∧
    (formOf exTwoFormsShadowed 2 = some 0 ∧ formOf exTwoFormsShadowed 3 = some 1 ∧
      submissions
        (runSteps [Step.wait 0, Step.search 2 (some 2), Step.wait 1, Step.search 3 (some 2),
          Step.wait 3] (load exTwoFormsShadowed 0)).log = []) := by
  refine ⟨⟨by decide, by decide, by decide, by decide, ?_⟩, by decide, by decide, by decide⟩
  rw [two_searches_then_wait exSearch 0 0 1 100 2 500 none none (by decide)]
  decide

end AdminJs
